import Mathlib

/-!
# Verification of the reconciliation core of aws-sso-google-sync

Shallow embedding of the reconciler in `internal/sync.go` (both present
variants of `SyncGroupsUsers`), the combined dual-store client in
`internal/aws/aws_client.go`, and the diff functions
`getUserOperations`, `getGroupOperations`, `getGroupUsersOperations`,
`getGoogleGroupsAndUsers`.

Go maps are represented by association lists together with a lookup
that returns the most recent binding (a Go map insert overwrites, so
the last write wins); Go slices by `List`; Go's `(value, error)`
returns by `Except`.  The effectful sync functions are embedded in a
trace-recording monad `SyncM` over an environment `Env` that answers
every AWS client call; the answers may depend on the full call history,
so any stateful backend is an instance of an `Env`.
-/

set_option maxHeartbeats 1000000

namespace Ssosync

/-- Error values crossing the client interfaces.  `userNotFound` and
`groupNotFound` embed the sentinels `aws.ErrUserNotFound` and
`aws.ErrGroupNotFound`; everything else is an opaque failure. -/
inductive Err where
  | userNotFound
  | groupNotFound
  | other (code : Nat)
deriving DecidableEq, Repr

/-- Google directory user (`admin.User`): the fields the sync reads. -/
structure GoogleUser where
  primaryEmail : String
  givenName : String
  familyName : String
  suspended : Bool
deriving DecidableEq, Repr

/-- Google directory group (`admin.Group`): the fields the sync reads. -/
structure GoogleGroup where
  name : String
  email : String
deriving DecidableEq, Repr

/-- Google group member (`admin.Member`): the fields the sync reads. -/
structure GoogleMember where
  email : String
  type : String
deriving DecidableEq, Repr

/-- AWS SSO SCIM user (`aws.User`): the fields the sync reads. -/
structure AwsUser where
  id : String
  username : String
  givenName : String
  familyName : String
  active : Bool
deriving DecidableEq, Repr

/-- AWS SSO SCIM group (`aws.Group`): the sync only reads `DisplayName`. -/
structure AwsGroup where
  displayName : String
deriving DecidableEq, Repr

/-- AWS group row shape of the first (DynamoDB-snapshot) variant:
`aws.Group` there carries a `Members` list of emails. -/
structure AwsGroupWithMembers where
  displayName : String
  members : List String
deriving DecidableEq, Repr

/-- Modelled from the spec: `aws.NewUser` is not under `src/` (only its
call sites are).  Per §4.1 step 3 of the spec it constructs a fresh
downstream record from upstream values: the email becomes the identity
key (`Username`), the given/family names are copied, and the active
flag is the supplied (already polarity-translated) value.  The SCIM
`ID` is assigned by the server and starts empty. -/
def NewUser (givenName familyName email : String) (active : Bool) : AwsUser :=
  AwsUser.mk "" email givenName familyName active

/-- Modelled from the spec: `aws.NewGroup` is not under `src/`.  It
constructs a downstream group record carrying the display name. -/
def NewGroup (displayName : String) : AwsGroup :=
  AwsGroup.mk displayName

/-- Modelled from the spec: `aws.UpdateUser` (the record constructor used
by `SyncUsers`) is not under `src/`.  It builds the replacement record
from the existing SCIM `ID` and the upstream values. -/
def updateUserRecord (id givenName familyName email : String) (active : Bool) : AwsUser :=
  AwsUser.mk id email givenName familyName active

/-- Lookup in a Go map represented as the list of inserts performed on
it: the last insert of a key wins, so search the reversed list. -/
def lookupLast (l : List α) (key : α → String) (k : String) : Option α :=
  l.reverse.find? (fun a => key a == k)

/-- Lookup in a Go map of key/value pairs (last insert wins). -/
def lookupMap (m : List (String × α)) (k : String) : Option α :=
  (m.reverse.find? (fun p => p.1 == k)).map (fun p => p.2)

/-- Indexing a Go map of slices: a missing key yields the nil slice. -/
def lookupList (m : List (String × List α)) (k : String) : List α :=
  (lookupMap m k).getD []

/-- The group identity key on the Google side (`googleGroupKey`,
sync.go): the group email. -/
def googleGroupKey (g : GoogleGroup) : String := g.email

/-- The group identity key on the AWS side (`awsGroupKey`, sync.go):
the display name. -/
def awsGroupKey (g : AwsGroup) : String := g.displayName

/-- The update test of `getUserOperations` (sync.go): the user needs an
update when `awsUser.Active == gUser.Suspended` (polarity mismatch) or
either name differs. -/
def userNeedsUpdate (awsUser : AwsUser) (gUser : GoogleUser) : Bool :=
  awsUser.active == gUser.suspended ||
  !(awsUser.givenName == gUser.givenName) ||
  !(awsUser.familyName == gUser.familyName)

/-- `getUserOperations` (sync.go): returns `(add, delete, update, equals)`.
The Go function builds `awsMap` from the downstream users (keyed by
`Username`), a key set from the upstream users (keyed by
`PrimaryEmail`), then classifies each upstream user into add / update /
equals and each downstream-only user into delete.  Each output list is
produced in the iteration order of the corresponding input list, which
the `filterMap`s below reproduce exactly. -/
def getUserOperations (awsUsers : List AwsUser) (googleUsers : List GoogleUser) :
    List AwsUser × List AwsUser × List AwsUser × List AwsUser :=
  let awsMap : String → Option AwsUser := lookupLast awsUsers (fun u => u.username)
  let googleHas : String → Bool := fun k => googleUsers.any (fun g => g.primaryEmail == k)
  let add : List AwsUser := googleUsers.filterMap (fun gUser =>
    match awsMap gUser.primaryEmail with
    | some _ => none
    | none => some (NewUser gUser.givenName gUser.familyName gUser.primaryEmail (!gUser.suspended)))
  let update : List AwsUser := googleUsers.filterMap (fun gUser =>
    match awsMap gUser.primaryEmail with
    | some awsUser =>
        if userNeedsUpdate awsUser gUser then
          some (NewUser gUser.givenName gUser.familyName gUser.primaryEmail (!gUser.suspended))
        else none
    | none => none)
  let equals : List AwsUser := googleUsers.filterMap (fun gUser =>
    match awsMap gUser.primaryEmail with
    | some awsUser => if userNeedsUpdate awsUser gUser then none else some awsUser
    | none => none)
  let del : List AwsUser := awsUsers.filterMap (fun awsUser =>
    if googleHas awsUser.username then none
    else some (NewUser awsUser.givenName awsUser.familyName awsUser.username awsUser.active))
  (add, del, update, equals)

/-- `getGroupOperations` (second variant, sync.go): returns
`(add, delete, equals)`, with both sides keyed by the injected key
functions `awsGroupKey` / `googleGroupKey`. -/
def getGroupOperations (awsGroups : List AwsGroup) (googleGroups : List GoogleGroup) :
    List AwsGroup × List AwsGroup × List AwsGroup :=
  let awsMap : String → Option AwsGroup := lookupLast awsGroups awsGroupKey
  let googleHas : String → Bool := fun k => googleGroups.any (fun g => googleGroupKey g == k)
  let add : List AwsGroup := googleGroups.filterMap (fun gGroup =>
    match awsMap (googleGroupKey gGroup) with
    | some _ => none
    | none => some (NewGroup (googleGroupKey gGroup)))
  let equals : List AwsGroup := googleGroups.filterMap (fun gGroup =>
    awsMap (googleGroupKey gGroup))
  let del : List AwsGroup := awsGroups.filterMap (fun awsGroup =>
    if googleHas (awsGroupKey awsGroup) then none
    else some (NewGroup (awsGroupKey awsGroup)))
  (add, del, equals)

/-- `getGroupOperations` of the first (DynamoDB-snapshot) variant: the
AWS side is keyed by `DisplayName` and the Google side by `Name`
directly (no key functions). -/
def getGroupOperationsV1 (awsGroups : List AwsGroupWithMembers) (googleGroups : List GoogleGroup) :
    List AwsGroup × List AwsGroup × List AwsGroupWithMembers :=
  let awsMap : String → Option AwsGroupWithMembers :=
    lookupLast awsGroups (fun g => g.displayName)
  let googleHas : String → Bool := fun k => googleGroups.any (fun g => g.name == k)
  let add : List AwsGroup := googleGroups.filterMap (fun gGroup =>
    match awsMap gGroup.name with
    | some _ => none
    | none => some (NewGroup gGroup.name))
  let equals : List AwsGroupWithMembers := googleGroups.filterMap (fun gGroup =>
    awsMap gGroup.name)
  let del : List AwsGroup := awsGroups.filterMap (fun awsGroup =>
    if googleHas awsGroup.displayName then none
    else some (NewGroup awsGroup.displayName))
  (add, del, equals)

/-- `getGroupUsersOperations` (sync.go): given the Google map of group
key to member users and the AWS map of group name to member users,
returns the per-group `(delete, equals)` maps.  The Go function builds
`mbG`, the per-group set of upstream member emails, then splits each
downstream group's member list by presence in `mbG`.  The returned Go
maps are represented by their lookup functions: a group absent from the
downstream map has the nil slice on both outputs, exactly as indexing
the Go result maps would yield. -/
def upstreamHasMember (gGroupsUsers : List (String × List GoogleUser))
    (groupName email : String) : Bool :=
  match lookupMap gGroupsUsers groupName with
  | some gUsers => gUsers.any (fun gUser => gUser.primaryEmail == email)
  | none => false

def getGroupUsersOperations (gGroupsUsers : List (String × List GoogleUser))
    (awsGroupsUsers : List (String × List AwsUser)) :
    (String → List AwsUser) × (String → List AwsUser) :=
  let del : String → List AwsUser := fun groupName =>
    match lookupMap awsGroupsUsers groupName with
    | some awsUsers =>
        awsUsers.filter (fun awsUser => !(upstreamHasMember gGroupsUsers groupName awsUser.username))
    | none => []
  let equals : String → List AwsUser := fun groupName =>
    match lookupMap awsGroupsUsers groupName with
    | some awsUsers =>
        awsUsers.filter (fun awsUser => upstreamHasMember gGroupsUsers groupName awsUser.username)
    | none => []
  (del, equals)

/-- The identity keys of a list of downstream user records. -/
def userKeys (l : List AwsUser) : List String := l.map (fun u => u.username)

/-- The identity keys of a list of downstream group records. -/
def groupKeys (l : List AwsGroup) : List String := l.map awsGroupKey

/-- One call on the AWS client interface (`aws.Client`), as recorded in
the run's trace.  Mutating calls carry the argument records; membership
calls carry the user name and group display name actually passed. -/
inductive Call where
  | findUserByEmail (email : String)
  | findGroupByDisplayName (name : String)
  | isUserInGroup (username groupName : String)
  | getGroups
  | getUsers
  | getGroupsWithMembers
  | createUser (u : AwsUser)
  | updateUser (u : AwsUser)
  | deleteUser (u : AwsUser)
  | createGroup (g : AwsGroup)
  | deleteGroup (g : AwsGroup)
  | addUserToGroup (username groupName : String)
  | removeUserFromGroup (username groupName : String)
deriving DecidableEq, Repr

/-- The seven mutation methods of the provisioning interface; everything
else on `Call` is a read. -/
def isMutationCall : Call → Bool
  | Call.createUser _ => true
  | Call.updateUser _ => true
  | Call.deleteUser _ => true
  | Call.createGroup _ => true
  | Call.deleteGroup _ => true
  | Call.addUserToGroup _ _ => true
  | Call.removeUserFromGroup _ _ => true
  | _ => false

/-- Environment answering AWS client calls.  Every answer may depend on
the full call history, so a stateful backend (or one that fails at a
chosen point) is obtained by instantiating the fields. -/
structure Env where
  findUserByEmail : List Call → String → Except Err AwsUser
  findGroupByDisplayName : List Call → String → Except Err AwsGroup
  isUserInGroup : List Call → String → String → Except Err Bool
  getGroups : List Call → Except Err (List AwsGroup)
  getUsers : List Call → Except Err (List AwsUser)
  getGroupsWithMembers : List Call → Except Err (List AwsGroupWithMembers)
  createUser : List Call → AwsUser → Except Err AwsUser
  updateUser : List Call → AwsUser → Except Err AwsUser
  deleteUser : List Call → AwsUser → Except Err Unit
  createGroup : List Call → AwsGroup → Except Err AwsGroup
  deleteGroup : List Call → AwsGroup → Except Err Unit
  addUserToGroup : List Call → String → String → Except Err Unit
  removeUserFromGroup : List Call → String → String → Except Err Unit

/-- Environment answering Google Directory calls (`google.Client`).
Google answers are a function of the query alone. -/
structure GEnv where
  getGroups : String → Except Err (List GoogleGroup)
  getGroupMembers : GoogleGroup → Except Err (List GoogleMember)
  getUsers : String → Except Err (List GoogleUser)
  getDeletedUsers : Except Err (List GoogleUser)

/-- The sync computation monad: threads the AWS call trace and stops at
the first error, like the Go `if err != nil return err` pattern.  The
trace made so far is kept even when the run aborts. -/
def SyncM (α : Type) : Type := List Call → Except Err α × List Call

def SyncM.pure (a : α) : SyncM α := fun t => (Except.ok a, t)

def SyncM.bind (m : SyncM α) (f : α → SyncM β) : SyncM β := fun t =>
  match m t with
  | (Except.ok a, t1) => f a t1
  | (Except.error e, t1) => (Except.error e, t1)

instance : Monad SyncM where
  pure := SyncM.pure
  bind := SyncM.bind

/-- Run a sync computation from the empty trace. -/
def SyncM.run (m : SyncM α) : Except Err α × List Call := m []

/-- Lift a call-free result (e.g. a Google API answer) into `SyncM`. -/
def liftE (r : Except Err α) : SyncM α := fun t => (r, t)

/-- Record one AWS call: the environment answers from the history
before the call, and the call is appended to the trace. -/
def callPrim (c : Call) (answer : List Call → Except Err α) : SyncM α :=
  fun t => (answer t, t ++ [c])

def callFindUserByEmail (env : Env) (email : String) : SyncM AwsUser :=
  callPrim (Call.findUserByEmail email) (fun t => env.findUserByEmail t email)

def callFindGroupByDisplayName (env : Env) (name : String) : SyncM AwsGroup :=
  callPrim (Call.findGroupByDisplayName name) (fun t => env.findGroupByDisplayName t name)

def callIsUserInGroup (env : Env) (username groupName : String) : SyncM Bool :=
  callPrim (Call.isUserInGroup username groupName) (fun t => env.isUserInGroup t username groupName)

def callGetGroups (env : Env) : SyncM (List AwsGroup) :=
  callPrim Call.getGroups env.getGroups

def callGetUsers (env : Env) : SyncM (List AwsUser) :=
  callPrim Call.getUsers env.getUsers

def callGetGroupsWithMembers (env : Env) : SyncM (List AwsGroupWithMembers) :=
  callPrim Call.getGroupsWithMembers env.getGroupsWithMembers

def callCreateUser (env : Env) (u : AwsUser) : SyncM AwsUser :=
  callPrim (Call.createUser u) (fun t => env.createUser t u)

def callUpdateUser (env : Env) (u : AwsUser) : SyncM AwsUser :=
  callPrim (Call.updateUser u) (fun t => env.updateUser t u)

def callDeleteUser (env : Env) (u : AwsUser) : SyncM Unit :=
  callPrim (Call.deleteUser u) (fun t => env.deleteUser t u)

def callCreateGroup (env : Env) (g : AwsGroup) : SyncM AwsGroup :=
  callPrim (Call.createGroup g) (fun t => env.createGroup t g)

def callDeleteGroup (env : Env) (g : AwsGroup) : SyncM Unit :=
  callPrim (Call.deleteGroup g) (fun t => env.deleteGroup t g)

def callAddUserToGroup (env : Env) (username groupName : String) : SyncM Unit :=
  callPrim (Call.addUserToGroup username groupName)
    (fun t => env.addUserToGroup t username groupName)

def callRemoveUserFromGroup (env : Env) (username groupName : String) : SyncM Unit :=
  callPrim (Call.removeUserFromGroup username groupName)
    (fun t => env.removeUserFromGroup t username groupName)

/-- Sequential `for _, x := range xs { ... if err return err }` loop. -/
def forEach (xs : List α) (f : α → SyncM Unit) : SyncM Unit :=
  match xs with
  | [] => pure ()
  | x :: rest => f x >>= fun _ => forEach rest f

/-- Sequential loop accumulating a value, aborting at the first error. -/
def foldEach (xs : List α) (init : β) (f : β → α → SyncM β) : SyncM β :=
  match xs with
  | [] => pure init
  | x :: rest => f init x >>= fun acc => foldEach rest acc f

/-- Run `m`; if it fails, discard the error and produce `dflt` instead
(the trace made before the failure is kept).  Embeds the one place of
the first `SyncGroupsUsers` variant where a returned error is assigned
and never checked. -/
def tryOr (m : SyncM α) (dflt : α) : SyncM α := fun t =>
  match m t with
  | (Except.ok a, t1) => (Except.ok a, t1)
  | (Except.error _, t1) => (Except.ok dflt, t1)

/-- `cfg.IgnoreUsers` / `cfg.IgnoreGroups` / `cfg.IncludeGroups` and the
dry-run flag: the configuration surface the core consumes. -/
structure Config where
  ignoreUsers : List String
  ignoreGroups : List String
  includeGroups : List String
  dryRun : Bool
deriving DecidableEq, Repr

/-- `syncGSuite.ignoreUser` (sync.go): exact string match. -/
def ignoreUser (cfg : Config) (name : String) : Bool :=
  cfg.ignoreUsers.any (fun u => u == name)

/-- `syncGSuite.ignoreGroup` (sync.go): exact string match. -/
def ignoreGroup (cfg : Config) (name : String) : Bool :=
  cfg.ignoreGroups.any (fun g => g == name)

/-- `syncGSuite.includeGroup` (sync.go): exact string match. -/
def includeGroup (cfg : Config) (name : String) : Bool :=
  cfg.includeGroups.any (fun g => g == name)

/-- The body of the member-resolution loop of `getGoogleGroupsAndUsers`
(sync.go): an ignored member, a member of type `"GROUP"`, and a member
whose `GetUsers("email:...")` lookup returns an empty list are all
silently dropped (`ok none`); a Google API failure aborts; otherwise the
first user returned is taken. -/
def resolveMember (cfg : Config) (genv : GEnv) (m : GoogleMember) :
    Except Err (Option GoogleUser) :=
  if ignoreUser cfg m.email then Except.ok none
  else if m.type == "GROUP" then Except.ok none
  else
    match genv.getUsers ("email:" ++ m.email) with
    | Except.error e => Except.error e
    | Except.ok [] => Except.ok none
    | Except.ok (u :: _) => Except.ok (some u)

/-- The inner member loop of `getGoogleGroupsAndUsers`: builds the
group's member user list and extends the `gUniqUsers` map (keyed by the
member email, first binding kept). -/
def collectMembers (cfg : Config) (genv : GEnv) (ms : List GoogleMember)
    (uniq : List (String × GoogleUser)) :
    Except Err (List GoogleUser × List (String × GoogleUser)) :=
  match ms with
  | [] => Except.ok ([], uniq)
  | m :: rest =>
    match resolveMember cfg genv m with
    | Except.error e => Except.error e
    | Except.ok none => collectMembers cfg genv rest uniq
    | Except.ok (some u) =>
      let uniq1 := if (lookupMap uniq m.email).isSome then uniq else uniq ++ [(m.email, u)]
      match collectMembers cfg genv rest uniq1 with
      | Except.error e => Except.error e
      | Except.ok (us, uniq2) => Except.ok (u :: us, uniq2)

/-- The group loop of `getGoogleGroupsAndUsers`, parameterised by the
key under which a group's member list is filed (`googleGroupKey g` in
the second variant, `g.Name` in the first). -/
def googleGroupsLoop (cfg : Config) (genv : GEnv) (key : GoogleGroup → String)
    (gs : List GoogleGroup) (uniq : List (String × GoogleUser)) :
    Except Err (List (String × List GoogleUser) × List (String × GoogleUser)) :=
  match gs with
  | [] => Except.ok ([], uniq)
  | g :: rest =>
    if ignoreGroup cfg g.email then googleGroupsLoop cfg genv key rest uniq
    else
      match genv.getGroupMembers g with
      | Except.error e => Except.error e
      | Except.ok groupMembers =>
        match collectMembers cfg genv groupMembers uniq with
        | Except.error e => Except.error e
        | Except.ok (membersUsers, uniq1) =>
          match googleGroupsLoop cfg genv key rest uniq1 with
          | Except.error e => Except.error e
          | Except.ok (assoc, uniq2) => Except.ok ((key g, membersUsers) :: assoc, uniq2)

/-- `getGoogleGroupsAndUsers` (second variant, sync.go): returns the
de-duplicated upstream user list and the map from group key to member
users.  The user list is produced in first-insertion order; Go iterates
the `gUniqUsers` map in unspecified order, of which this is one. -/
def getGoogleGroupsAndUsers (cfg : Config) (genv : GEnv) (googleGroups : List GoogleGroup) :
    Except Err (List GoogleUser × List (String × List GoogleUser)) :=
  match googleGroupsLoop cfg genv googleGroupKey googleGroups [] with
  | Except.error e => Except.error e
  | Except.ok (assoc, uniq) => Except.ok (uniq.map (fun p => p.2), assoc)

/-- `getGoogleGroupsAndUsers` of the first variant: identical, but the
member map is keyed by the Google group `Name`. -/
def getGoogleGroupsAndUsersV1 (cfg : Config) (genv : GEnv) (googleGroups : List GoogleGroup) :
    Except Err (List GoogleUser × List (String × List GoogleUser)) :=
  match googleGroupsLoop cfg genv (fun g => g.name) googleGroups [] with
  | Except.error e => Except.error e
  | Except.ok (assoc, uniq) => Except.ok (uniq.map (fun p => p.2), assoc)

/-- `getAWSGroupsAndUsers` (second variant, sync.go): for each AWS
group, test each AWS user's membership via `IsUserInGroup`; file the
members under the group's display name. -/
def getAWSGroupsAndUsersM (env : Env) (awsGroups : List AwsGroup) (awsUsers : List AwsUser) :
    SyncM (List (String × List AwsUser)) :=
  foldEach awsGroups [] (fun acc awsGroup => do
    let users ← foldEach awsUsers [] (fun us user => do
      let found ← callIsUserInGroup env user.username awsGroup.displayName
      pure (if found then us ++ [user] else us))
    pure (acc ++ [(awsGroup.displayName, users)]))

/-- `getAWSGroupsAndUsers` as called by the first variant (the group
snapshot there carries members; only `DisplayName` is read). -/
def getAWSGroupsAndUsersV1M (env : Env) (awsGroups : List AwsGroupWithMembers)
    (awsUsers : List AwsUser) : SyncM (List (String × List AwsUser)) :=
  foldEach awsGroups [] (fun acc awsGroup => do
    let users ← foldEach awsUsers [] (fun us user => do
      let found ← callIsUserInGroup env user.username awsGroup.displayName
      pure (if found then us ++ [user] else us))
    pure (acc ++ [(awsGroup.displayName, users)]))

/-- The snapshots read at the start of a `SyncGroupsUsers` run (second
variant): the filtered Google groups, the Google users and per-group
member map, and the AWS groups, users and per-group member map. -/
structure Snapshot where
  googleGroups : List GoogleGroup
  googleUsers : List GoogleUser
  googleGroupsUsers : List (String × List GoogleUser)
  awsGroups : List AwsGroup
  awsUsers : List AwsUser
  awsGroupsUsers : List (String × List AwsUser)

/-- The read phase of the second `SyncGroupsUsers` (sync.go): Google
groups (filtered by the ignore list), Google users and group members,
AWS groups, AWS users, AWS group members. -/
def readPhase (cfg : Config) (genv : GEnv) (env : Env) (query : String) : SyncM Snapshot := do
  let googleGroupsAll ← liftE (genv.getGroups query)
  let googleGroups := googleGroupsAll.filter (fun g => !(ignoreGroup cfg g.email))
  let gg ← liftE (getGoogleGroupsAndUsers cfg genv googleGroups)
  let awsGroups ← callGetGroups env
  let awsUsers ← callGetUsers env
  let awsGroupsUsers ← getAWSGroupsAndUsersM env awsGroups awsUsers
  SyncM.pure (Snapshot.mk googleGroups gg.1 gg.2 awsGroups awsUsers awsGroupsUsers)

/-- Apply step 1 (sync.go): delete AWS users deleted in Google.  Each
user is re-fetched by email and then deleted; any error aborts. -/
def stepDeleteUsers (env : Env) (delAWSUsers : List AwsUser) : SyncM Unit :=
  forEach delAWSUsers (fun awsUser => do
    let awsUserFull ← callFindUserByEmail env awsUser.username
    callDeleteUser env awsUserFull)

/-- Apply step 2 (sync.go): update AWS users updated in Google.  The
code re-fetches the downstream record and passes that fetched record —
not the update record computed by `getUserOperations` — to
`UpdateUser`. -/
def stepUpdateUsers (env : Env) (updateAWSUsers : List AwsUser) : SyncM Unit :=
  forEach updateAWSUsers (fun awsUser => do
    let awsUserFull ← callFindUserByEmail env awsUser.username
    let _ ← callUpdateUser env awsUserFull
    SyncM.pure ())

/-- Apply step 3 (sync.go): create AWS users added in Google. -/
def stepCreateUsers (env : Env) (addAWSUsers : List AwsUser) : SyncM Unit :=
  forEach addAWSUsers (fun awsUser => do
    let _ ← callCreateUser env awsUser
    SyncM.pure ())

/-- Apply step 4 (sync.go): create AWS groups added in Google,
collecting the records returned by `CreateGroup`. -/
def stepCreateGroups (env : Env) (addAWSGroups : List AwsGroup) : SyncM (List AwsGroup) :=
  foldEach addAWSGroups [] (fun acc awsGroup => do
    let newAwsGroup ← callCreateGroup env awsGroup
    SyncM.pure (acc ++ [newAwsGroup]))

/-- Apply step 5 (sync.go): over all AWS groups (pre-existing plus just
created), skip those whose key is absent from the Google member map and
add every Google member to the rest, resolving each member downstream
by email first. -/
def stepAddMembers (env : Env) (googleGroupsUsers : List (String × List GoogleUser))
    (allAwsGroups : List AwsGroup) : SyncM Unit :=
  forEach allAwsGroups (fun awsGroup =>
    match lookupMap googleGroupsUsers (awsGroupKey awsGroup) with
    | none => SyncM.pure ()
    | some members => forEach members (fun googleUser => do
        let awsUserFull ← callFindUserByEmail env googleUser.primaryEmail
        callAddUserToGroup env awsUserFull.username awsGroup.displayName))

/-- Apply step 6 (sync.go): for each pre-existing (`equal`) group, add
every Google member found missing via `IsUserInGroup`, then remove the
group's delete-list computed by `getGroupUsersOperations`. -/
def stepReconcileEqualGroups (env : Env) (googleGroupsUsers : List (String × List GoogleUser))
    (deleteUsersFromGroup : String → List AwsUser) (equalAWSGroups : List AwsGroup) :
    SyncM Unit :=
  forEach equalAWSGroups (fun awsGroup => do
    forEach (lookupList googleGroupsUsers (awsGroupKey awsGroup)) (fun googleUser => do
      let awsUserFull ← callFindUserByEmail env googleUser.primaryEmail
      let b ← callIsUserInGroup env awsUserFull.username (awsGroupKey awsGroup)
      if b then SyncM.pure ()
      else callAddUserToGroup env awsUserFull.username (awsGroupKey awsGroup))
    forEach (deleteUsersFromGroup (awsGroupKey awsGroup)) (fun awsUser =>
      callRemoveUserFromGroup env awsUser.username (awsGroupKey awsGroup)))

/-- Apply step 7 (sync.go): delete AWS groups deleted in Google, each
re-fetched by display name first. -/
def stepDeleteGroups (env : Env) (delAWSGroups : List AwsGroup) : SyncM Unit :=
  forEach delAWSGroups (fun awsGroup => do
    let awsGroupFull ← callFindGroupByDisplayName env (awsGroupKey awsGroup)
    callDeleteGroup env awsGroupFull)

/-- The ordered apply sequence of the second `SyncGroupsUsers`: the
seven steps chained so that each runs only after the previous one
returned without error. -/
def orderedApply (env : Env) (s : Snapshot) : SyncM Unit :=
  stepDeleteUsers env (getUserOperations s.awsUsers s.googleUsers).2.1 >>= fun _ =>
  stepUpdateUsers env (getUserOperations s.awsUsers s.googleUsers).2.2.1 >>= fun _ =>
  stepCreateUsers env (getUserOperations s.awsUsers s.googleUsers).1 >>= fun _ =>
  stepCreateGroups env (getGroupOperations s.awsGroups s.googleGroups).1 >>= fun newAwsGroups =>
  stepAddMembers env s.googleGroupsUsers (s.awsGroups ++ newAwsGroups) >>= fun _ =>
  stepReconcileEqualGroups env s.googleGroupsUsers
    (getGroupUsersOperations s.googleGroupsUsers s.awsGroupsUsers).1
    (getGroupOperations s.awsGroups s.googleGroups).2.2 >>= fun _ =>
  stepDeleteGroups env (getGroupOperations s.awsGroups s.googleGroups).2.1

/-- The second (current) `SyncGroupsUsers` (sync.go), translated
loop by loop: read the two snapshots, compute the diffs, then delete
users, update users, create users, create groups, populate membership
of every group appearing upstream, reconcile membership of the `equal`
groups (adds before removes within each group), and delete groups.
Every `if err != nil return err` is the monad's short-circuit. -/
def syncGroupsUsers (cfg : Config) (genv : GEnv) (env : Env) (query : String) : SyncM Unit := do
  let googleGroupsAll ← liftE (genv.getGroups query)
  let googleGroups := googleGroupsAll.filter (fun g => !(ignoreGroup cfg g.email))
  let gg ← liftE (getGoogleGroupsAndUsers cfg genv googleGroups)
  let awsGroups ← callGetGroups env
  let awsUsers ← callGetUsers env
  let awsGroupsUsers ← getAWSGroupsAndUsersM env awsGroups awsUsers
  stepDeleteUsers env (getUserOperations awsUsers gg.1).2.1 >>= fun _ =>
  stepUpdateUsers env (getUserOperations awsUsers gg.1).2.2.1 >>= fun _ =>
  stepCreateUsers env (getUserOperations awsUsers gg.1).1 >>= fun _ =>
  stepCreateGroups env (getGroupOperations awsGroups googleGroups).1 >>= fun newAwsGroups =>
  stepAddMembers env gg.2 (awsGroups ++ newAwsGroups) >>= fun _ =>
  stepReconcileEqualGroups env gg.2
    (getGroupUsersOperations gg.2 awsGroupsUsers).1
    (getGroupOperations awsGroups googleGroups).2.2 >>= fun _ =>
  stepDeleteGroups env (getGroupOperations awsGroups googleGroups).2.1

/-- Combined downstream state as observable through the wrapper client:
the user set (SCIM and the DynamoDB user table agreeing), the group
set, and the membership rows of the DynamoDB group table. -/
structure World where
  users : List AwsUser
  groups : List AwsGroup
  memberships : List (String × String)
deriving DecidableEq, Repr

/-- Effect of one client call on the downstream state, following
`aws_client.go`: `DeleteUser` removes the user from both user stores
but leaves membership rows (the wrapper never purges them);
`DeleteGroup` removes the group and purges its rows; `UpdateUser`
replaces the record with the same username by its argument;
`AddUserToGroup` / `RemoveUserFromGroup` insert or delete a row.
Reads change nothing. -/
def applyCall (w : World) (c : Call) : World :=
  match c with
  | Call.createUser u => World.mk (w.users ++ [u]) w.groups w.memberships
  | Call.updateUser u =>
      World.mk (w.users.map (fun x => if x.username == u.username then u else x))
        w.groups w.memberships
  | Call.deleteUser u =>
      World.mk (w.users.filter (fun x => !(x.username == u.username))) w.groups w.memberships
  | Call.createGroup g => World.mk w.users (w.groups ++ [g]) w.memberships
  | Call.deleteGroup g =>
      World.mk w.users (w.groups.filter (fun x => !(x.displayName == g.displayName)))
        (w.memberships.filter (fun r => !(r.1 == g.displayName)))
  | Call.addUserToGroup username groupName =>
      if w.memberships.contains (groupName, username) then w
      else World.mk w.users w.groups (w.memberships ++ [(groupName, username)])
  | Call.removeUserFromGroup username groupName =>
      World.mk w.users w.groups
        (w.memberships.filter (fun r => !(r == (groupName, username))))
  | _ => w

/-- Replay a trace of calls over an initial state. -/
def replay (w : World) (t : List Call) : World := t.foldl applyCall w

/-- A deterministic environment backed by a `World`: every answer is
read from the state obtained by replaying the calls made so far, and
every mutation succeeds. -/
def worldEnv (w0 : World) : Env where
  findUserByEmail := fun t email =>
    match (replay w0 t).users.find? (fun u => u.username == email) with
    | some u => Except.ok u
    | none => Except.error Err.userNotFound
  findGroupByDisplayName := fun t name =>
    match (replay w0 t).groups.find? (fun g => g.displayName == name) with
    | some g => Except.ok g
    | none => Except.error Err.groupNotFound
  isUserInGroup := fun t username groupName =>
    Except.ok ((replay w0 t).memberships.contains (groupName, username))
  getGroups := fun t => Except.ok (replay w0 t).groups
  getUsers := fun t => Except.ok (replay w0 t).users
  getGroupsWithMembers := fun _ => Except.ok []
  createUser := fun _ u => Except.ok u
  updateUser := fun _ u => Except.ok u
  deleteUser := fun _ _ => Except.ok ()
  createGroup := fun _ g => Except.ok g
  deleteGroup := fun _ _ => Except.ok ()
  addUserToGroup := fun _ _ _ => Except.ok ()
  removeUserFromGroup := fun _ _ _ => Except.ok ()

/-! ### A concrete one-user, one-group scenario exercising the update step -/

/-- Upstream user for the update scenario: same email as downstream,
a changed given name, not suspended. -/
def gUserUpd : GoogleUser := GoogleUser.mk "a@x.com" "NewGiven" "Fam" false

/-- Google directory for the update scenario: one group `g@x.com` with
the single member `a@x.com`. -/
def genvUpd : GEnv where
  getGroups := fun _ => Except.ok [GoogleGroup.mk "G" "g@x.com"]
  getGroupMembers := fun _ => Except.ok [GoogleMember.mk "a@x.com" "USER"]
  getUsers := fun q => if q == "email:a@x.com" then Except.ok [gUserUpd] else Except.ok []
  getDeletedUsers := Except.ok []

/-- Downstream record for the update scenario: stale given name. -/
def oldUserUpd : AwsUser := AwsUser.mk "id1" "a@x.com" "OldGiven" "Fam" true

/-- Downstream state for the update scenario: the user, the group, and
the membership already in place. -/
def w0Upd : World :=
  World.mk [oldUserUpd] [AwsGroup.mk "g@x.com"] [("g@x.com", "a@x.com")]

/-- Empty configuration, dry-run off. -/
def cfgEmpty : Config := Config.mk [] [] [] false

/-- Run `m` and reify its error into the result, like Go code that
assigns `x, err := ...` and inspects `err` instead of returning. -/
def attempt (m : SyncM α) : SyncM (Except Err α) := fun t =>
  match m t with
  | (Except.ok a, t1) => (Except.ok (Except.ok a), t1)
  | (Except.error e, t1) => (Except.ok (Except.error e), t1)

/-- The deleted-users loop of `SyncUsers` (sync.go): for each deleted
Google user, look the user up downstream; `ErrUserNotFound` means the
user is already gone and the loop continues with the next user; any
other lookup error is returned; otherwise the user is deleted and a
deletion error is returned. -/
def syncUsersDeletedLoop (env : Env) (deletedUsers : List GoogleUser) : SyncM Unit :=
  match deletedUsers with
  | [] => SyncM.pure ()
  | u :: rest => do
    let r ← attempt (callFindUserByEmail env u.primaryEmail)
    match r with
    | Except.error Err.userNotFound => syncUsersDeletedLoop env rest
    | Except.error e => liftE (Except.error e)
    | Except.ok uu => do
        callDeleteUser env uu
        syncUsersDeletedLoop env rest

/-- The active-users loop of `SyncUsers` (sync.go): skip ignored users;
look each Google user up downstream with the error discarded (`uu, _ :=`);
a found user is recorded in the run's `users` map and updated — with a
correctly constructed record, via `aws.UpdateUser` — when the
active/suspended polarity mismatches; an unfound user is created.  The
receiver's `users` map is threaded explicitly. -/
def syncUsersActiveLoop (cfg : Config) (env : Env) (googleUsers : List GoogleUser)
    (users : List (String × AwsUser)) : SyncM (List (String × AwsUser)) :=
  match googleUsers with
  | [] => SyncM.pure users
  | u :: rest =>
    if ignoreUser cfg u.primaryEmail then syncUsersActiveLoop cfg env rest users
    else do
      let r ← attempt (callFindUserByEmail env u.primaryEmail)
      match r with
      | Except.ok uu =>
        if uu.active == u.suspended then do
          let _ ← callUpdateUser env
            (updateUserRecord uu.id u.givenName u.familyName u.primaryEmail (!u.suspended))
          syncUsersActiveLoop cfg env rest (users ++ [(uu.username, uu)])
        else syncUsersActiveLoop cfg env rest (users ++ [(uu.username, uu)])
      | Except.error _ => do
        let uu ← callCreateUser env (NewUser u.givenName u.familyName u.primaryEmail (!u.suspended))
        syncUsersActiveLoop cfg env rest (users ++ [(uu.username, uu)])

/-- `SyncUsers` (sync.go): process the deleted users, then the active
users matching the query; returns the accumulated `users` map. -/
def syncUsers (cfg : Config) (genv : GEnv) (env : Env) (query : String) :
    SyncM (List (String × AwsUser)) := do
  let deletedUsers ← liftE genv.getDeletedUsers
  syncUsersDeletedLoop env deletedUsers
  let googleUsers ← liftE (genv.getUsers query)
  syncUsersActiveLoop cfg env googleUsers []

/-- The AWS-user fetch loop of the first `SyncGroupsUsers` variant:
resolve every email found in the DynamoDB group snapshot through
`FindUserByEmail`, aborting on any error. -/
def fetchAwsUsers (env : Env) (emails : List String) : SyncM (List AwsUser) :=
  foldEach emails [] (fun acc email => do
    let awsUser ← callFindUserByEmail env email
    SyncM.pure (acc ++ [awsUser]))

/-- Create-groups loop of the first variant: the created record is
discarded. -/
def stepCreateGroupsV1 (env : Env) (addAWSGroups : List AwsGroup) : SyncM Unit :=
  forEach addAWSGroups (fun awsGroup => do
    let _ ← callCreateGroup env awsGroup
    SyncM.pure ())

/-- Equal-groups reconcile loop of the first variant: identical to the
second variant's, but over the DynamoDB group records, keyed by
`DisplayName`. -/
def stepReconcileEqualGroupsV1 (env : Env) (googleGroupsUsers : List (String × List GoogleUser))
    (deleteUsersFromGroup : String → List AwsUser)
    (equalAWSGroups : List AwsGroupWithMembers) : SyncM Unit :=
  forEach equalAWSGroups (fun awsGroup => do
    forEach (lookupList googleGroupsUsers awsGroup.displayName) (fun googleUser => do
      let awsUserFull ← callFindUserByEmail env googleUser.primaryEmail
      let b ← callIsUserInGroup env awsUserFull.username awsGroup.displayName
      if b then SyncM.pure ()
      else callAddUserToGroup env awsUserFull.username awsGroup.displayName)
    forEach (deleteUsersFromGroup awsGroup.displayName) (fun awsUser =>
      callRemoveUserFromGroup env awsUser.username awsGroup.displayName))

/-- The first `SyncGroupsUsers` variant (sync.go): the downstream
snapshot comes from the DynamoDB `GetGroupsWithMembers` table, member
emails are resolved one by one, and the diff is computed with the
`Name`/`DisplayName` keying of that variant; the error returned by
`getAWSGroupsAndUsers` is assigned and never checked, which `tryOr`
embeds.  When `cfg.DryRun` is set the function returns right after the
diff, before any apply loop. -/
def syncGroupsUsersV1 (cfg : Config) (genv : GEnv) (env : Env) (query : String) : SyncM Unit := do
  let googleGroupsAll ← liftE (genv.getGroups query)
  let googleGroups := googleGroupsAll.filter (fun g => !(ignoreGroup cfg g.email))
  let gg ← liftE (getGoogleGroupsAndUsersV1 cfg genv googleGroups)
  let awsGroups ← callGetGroupsWithMembers env
  let awsUsers ← fetchAwsUsers env (awsGroups.foldl (fun acc group => acc ++ group.members) [])
  let awsGroupsUsers ← tryOr (getAWSGroupsAndUsersV1M env awsGroups awsUsers) []
  if cfg.dryRun then SyncM.pure () else
  stepDeleteUsers env (getUserOperations awsUsers gg.1).2.1 >>= fun _ =>
  stepUpdateUsers env (getUserOperations awsUsers gg.1).2.2.1 >>= fun _ =>
  stepCreateUsers env (getUserOperations awsUsers gg.1).1 >>= fun _ =>
  stepCreateGroupsV1 env (getGroupOperationsV1 awsGroups googleGroups).1 >>= fun _ =>
  (callGetGroups env >>= fun newAwsGroups => stepAddMembers env gg.2 newAwsGroups) >>= fun _ =>
  stepReconcileEqualGroupsV1 env gg.2 (getGroupUsersOperations gg.2 awsGroupsUsers).1
    (getGroupOperationsV1 awsGroups googleGroups).2.2 >>= fun _ =>
  stepDeleteGroups env (getGroupOperationsV1 awsGroups googleGroups).2.1

/-! ### Call classifiers for the ordered-apply theorem -/

/-- Calls that are not mutations. -/
def isReadCall (c : Call) : Bool := !(isMutationCall c)

/-- Calls made by apply step 1 (delete users). -/
def deleteUsersCall : Call → Bool
  | Call.findUserByEmail _ => true
  | Call.deleteUser _ => true
  | _ => false

/-- Calls made by apply step 2 (update users). -/
def updateUsersCall : Call → Bool
  | Call.findUserByEmail _ => true
  | Call.updateUser _ => true
  | _ => false

/-- Calls made by apply step 3 (create users). -/
def createUsersCall : Call → Bool
  | Call.createUser _ => true
  | _ => false

/-- Calls made by apply step 4 (create groups). -/
def createGroupsCall : Call → Bool
  | Call.createGroup _ => true
  | _ => false

/-- Calls made by apply step 5 (populate membership of groups appearing
upstream). -/
def addMembersCall : Call → Bool
  | Call.findUserByEmail _ => true
  | Call.addUserToGroup _ _ => true
  | _ => false

/-- Calls made by the add half of apply step 6. -/
def reconcileAddCall : Call → Bool
  | Call.findUserByEmail _ => true
  | Call.isUserInGroup _ _ => true
  | Call.addUserToGroup _ _ => true
  | _ => false

/-- Calls made by the remove half of apply step 6. -/
def reconcileRemoveCall : Call → Bool
  | Call.removeUserFromGroup _ _ => true
  | _ => false

/-- Calls made by apply step 6 (reconcile membership of equal groups). -/
def reconcileCall (c : Call) : Bool := reconcileAddCall c || reconcileRemoveCall c

/-- Calls made by apply step 7 (delete groups). -/
def deleteGroupsCall : Call → Bool
  | Call.findGroupByDisplayName _ => true
  | Call.deleteGroup _ => true
  | _ => false

/-- `m` only ever appends calls satisfying `P` to the trace, whatever
the history and however the run ends. -/
def EmitsOnly (P : Call → Bool) (m : SyncM α) : Prop :=
  ∀ t, ∃ d, (m t).2 = t ++ d ∧ ∀ c ∈ d, P c = true

/-! ### The dual-store combined client (`aws_client.go`) -/

/-- State of the two membership stores behind the combined client:
rows `(groupName, username)` of the DynamoDB cache and memberships of
the SCIM provisioning store. -/
structure DualState where
  cacheRows : List (String × String)
  ssoRows : List (String × String)
deriving DecidableEq, Repr

/-- One store access performed by the combined client, in order. -/
inductive StoreEvent where
  | cacheCheck (groupName username : String) (result : Bool)
  | cacheAdd (groupName username : String)
  | cacheRemove (groupName username : String)
  | ssoAdd (groupName username : String)
  | ssoRemove (groupName username : String)
deriving DecidableEq, Repr

/-- Failure injection for the five store accesses of the membership
paths of the combined client. -/
structure FaultEnv where
  cacheCheckErr : Option Err
  cacheAddErr : Option Err
  cacheRemoveErr : Option Err
  ssoAddErr : Option Err
  ssoRemoveErr : Option Err
deriving DecidableEq, Repr

/-- Errors returned by the combined client: each wraps the underlying
store error with the call-site message, as the `fmt.Errorf("...: %w")`
wrapping in `aws_client.go` does. -/
inductive ClientErr where
  | wrapCacheAdd (e : Err)
  | wrapCacheRemove (e : Err)
  | wrapSsoAdd (e : Err)
  | wrapSsoRemove (e : Err)
deriving DecidableEq, Repr

/-- Insert a membership row (a DynamoDB `PutItem` of the keyed row and
a SCIM member add are both idempotent at the set level). -/
def insertRow (rows : List (String × String)) (g u : String) : List (String × String) :=
  if (g, u) ∈ rows then rows else rows ++ [(g, u)]

/-- Delete a membership row. -/
def removeRow (rows : List (String × String)) (g u : String) : List (String × String) :=
  rows.filter (fun r => decide (r ≠ (g, u)))

/-- `dynamoDBClient.IsUserInGroup`: on a query error it returns
`(false, err)`, otherwise whether the row exists. -/
def dynamoIsUserInGroup (fe : FaultEnv) (st : DualState) (u g : String) : Bool × Option Err :=
  match fe.cacheCheckErr with
  | some e => (false, some e)
  | none => (decide ((g, u) ∈ st.cacheRows), none)

/-- `awsClient.AddUserToGroup` (aws_client.go): check the cache — the
check's error is assigned but only the boolean is inspected — write the
cache row when the check reported the user absent, then write the
provisioning store.  Returns the result, the final state of both
stores, and the list of store accesses attempted, in order. -/
def awsClientAddUserToGroup (fe : FaultEnv) (st : DualState) (u g : String) :
    Except ClientErr Unit × DualState × List StoreEvent :=
  let check := dynamoIsUserInGroup fe st u g
  let isUserInDynamoDBGroup := check.1
  let ev0 := [StoreEvent.cacheCheck g u isUserInDynamoDBGroup]
  if isUserInDynamoDBGroup then
    match fe.ssoAddErr with
    | some e => (Except.error (ClientErr.wrapSsoAdd e), st, ev0 ++ [StoreEvent.ssoAdd g u])
    | none =>
        (Except.ok (), DualState.mk st.cacheRows (insertRow st.ssoRows g u),
          ev0 ++ [StoreEvent.ssoAdd g u])
  else
    match fe.cacheAddErr with
    | some e => (Except.error (ClientErr.wrapCacheAdd e), st, ev0 ++ [StoreEvent.cacheAdd g u])
    | none =>
      let st1 := DualState.mk (insertRow st.cacheRows g u) st.ssoRows
      match fe.ssoAddErr with
      | some e =>
          (Except.error (ClientErr.wrapSsoAdd e), st1,
            ev0 ++ [StoreEvent.cacheAdd g u, StoreEvent.ssoAdd g u])
      | none =>
          (Except.ok (), DualState.mk st1.cacheRows (insertRow st1.ssoRows g u),
            ev0 ++ [StoreEvent.cacheAdd g u, StoreEvent.ssoAdd g u])

/-- `awsClient.RemoveUserFromGroup` (aws_client.go): delete from the
provisioning store first, then from the cache. -/
def awsClientRemoveUserFromGroup (fe : FaultEnv) (st : DualState) (u g : String) :
    Except ClientErr Unit × DualState × List StoreEvent :=
  match fe.ssoRemoveErr with
  | some e => (Except.error (ClientErr.wrapSsoRemove e), st, [StoreEvent.ssoRemove g u])
  | none =>
    let st1 := DualState.mk st.cacheRows (removeRow st.ssoRows g u)
    match fe.cacheRemoveErr with
    | some e =>
        (Except.error (ClientErr.wrapCacheRemove e), st1,
          [StoreEvent.ssoRemove g u, StoreEvent.cacheRemove g u])
    | none =>
        (Except.ok (), DualState.mk (removeRow st1.cacheRows g u) st1.ssoRows,
          [StoreEvent.ssoRemove g u, StoreEvent.cacheRemove g u])

/-! ### Further concrete scenarios used by witnesses and counterexamples -/

/-- An empty Google directory. -/
def genvEmpty : GEnv where
  getGroups := fun _ => Except.ok []
  getGroupMembers := fun _ => Except.ok []
  getUsers := fun _ => Except.ok []
  getDeletedUsers := Except.ok []

/-- A downstream user listed by `GetUsers` but unresolvable by
`FindUserByEmail`. -/
def userGhost : AwsUser := AwsUser.mk "id2" "b@x.com" "B" "B" true

/-- Environment whose user snapshot contains `userGhost` while every
`FindUserByEmail` lookup reports `ErrUserNotFound`. -/
def envGhost : Env where
  findUserByEmail := fun _ _ => Except.error Err.userNotFound
  findGroupByDisplayName := fun _ _ => Except.error Err.groupNotFound
  isUserInGroup := fun _ _ _ => Except.ok false
  getGroups := fun _ => Except.ok []
  getUsers := fun _ => Except.ok [userGhost]
  getGroupsWithMembers := fun _ => Except.ok []
  createUser := fun _ u => Except.ok u
  updateUser := fun _ u => Except.ok u
  deleteUser := fun _ _ => Except.ok ()
  createGroup := fun _ g => Except.ok g
  deleteGroup := fun _ _ => Except.ok ()
  addUserToGroup := fun _ _ _ => Except.ok ()
  removeUserFromGroup := fun _ _ _ => Except.ok ()

/-- Empty configuration with the dry-run flag set. -/
def cfgDry : Config := Config.mk [] [] [] true

/-- Environment whose user lookups fail with an error other than
NotFound. -/
def envWrongErr : Env where
  findUserByEmail := fun _ _ => Except.error (Err.other 5)
  findGroupByDisplayName := fun _ _ => Except.error Err.groupNotFound
  isUserInGroup := fun _ _ _ => Except.ok false
  getGroups := fun _ => Except.ok []
  getUsers := fun _ => Except.ok []
  getGroupsWithMembers := fun _ => Except.ok []
  createUser := fun _ u => Except.ok u
  updateUser := fun _ u => Except.ok u
  deleteUser := fun _ _ => Except.ok ()
  createGroup := fun _ g => Except.ok g
  deleteGroup := fun _ _ => Except.ok ()
  addUserToGroup := fun _ _ _ => Except.ok ()
  removeUserFromGroup := fun _ _ _ => Except.ok ()

/-- Environment that resolves every user lookup to `userGhost` but
fails every deletion. -/
def envDelFail : Env where
  findUserByEmail := fun _ _ => Except.ok userGhost
  findGroupByDisplayName := fun _ _ => Except.error Err.groupNotFound
  isUserInGroup := fun _ _ _ => Except.ok false
  getGroups := fun _ => Except.ok []
  getUsers := fun _ => Except.ok []
  getGroupsWithMembers := fun _ => Except.ok []
  createUser := fun _ u => Except.ok u
  updateUser := fun _ u => Except.ok u
  deleteUser := fun _ _ => Except.error (Err.other 3)
  createGroup := fun _ g => Except.ok g
  deleteGroup := fun _ _ => Except.ok ()
  addUserToGroup := fun _ _ _ => Except.ok ()
  removeUserFromGroup := fun _ _ _ => Except.ok ()

/-! ### The literal membership scenario: downstream `[a,b,c]`, upstream `[a,c]` -/

/-- Upstream member `a`. -/
def gMemA : GoogleUser := GoogleUser.mk "a" "GA" "FA" false

/-- Upstream member `c`. -/
def gMemC : GoogleUser := GoogleUser.mk "c" "GC" "FC" false

/-- Downstream member `a`. -/
def uMemA : AwsUser := AwsUser.mk "ia" "a" "GA" "FA" true

/-- Downstream member `b`. -/
def uMemB : AwsUser := AwsUser.mk "ib" "b" "GB" "FB" true

/-- Downstream member `c`. -/
def uMemC : AwsUser := AwsUser.mk "ic" "c" "GC" "FC" true

/-- Upstream version of `oldUserUpd`'s account, now suspended. -/
def gSusp : GoogleUser := GoogleUser.mk "a@x.com" "NewGiven" "Fam" true

/-- Upstream member map of the scenario. -/
def gguScenario : List (String × List GoogleUser) := [("g", [gMemA, gMemC])]

/-- Downstream member map of the scenario. -/
def aguScenario : List (String × List AwsUser) := [("g", [uMemA, uMemB, uMemC])]

/-- The user produced by a successful member resolution (`u[0]` of the
`GetUsers` answer), or `none` when the member is skipped; the
error-free projection of `resolveMember`. -/
def resolveMemberOk (cfg : Config) (genv : GEnv) (m : GoogleMember) : Option GoogleUser :=
  match resolveMember cfg genv m with
  | Except.ok o => o
  | Except.error _ => none

/-! ### A group whose members include a nested group and an unknown user -/

/-- The one resolvable upstream user of the skip scenario. -/
def gUserX : GoogleUser := GoogleUser.mk "u@x.com" "U" "X" false

/-- The group of the skip scenario. -/
def gGroupX : GoogleGroup := GoogleGroup.mk "GX" "gx@x.com"

/-- Members of the skip scenario: a resolvable user, a nested group
address, and an address no user lookup resolves. -/
def memsSkip : List GoogleMember :=
  [GoogleMember.mk "u@x.com" "USER", GoogleMember.mk "sub@x.com" "GROUP",
   GoogleMember.mk "ghost@x.com" "USER"]

/-- Google directory of the skip scenario. -/
def genvSkip : GEnv where
  getGroups := fun _ => Except.ok [gGroupX]
  getGroupMembers := fun _ => Except.ok memsSkip
  getUsers := fun q => if q == "email:u@x.com" then Except.ok [gUserX] else Except.ok []
  getDeletedUsers := Except.ok []

end Ssosync

namespace Ssosync

/-! ### Basic lemmas about the sync monad and its traces -/

theorem SyncM.bind_def (m : SyncM α) (f : α → SyncM β) : m >>= f = SyncM.bind m f := rfl

theorem SyncM.pure_def (a : α) : (pure a : SyncM α) = SyncM.pure a := rfl

theorem SyncM.bind_assoc (m : SyncM α) (f : α → SyncM β) (g : β → SyncM γ) :
    (m >>= f) >>= g = m >>= fun a => f a >>= g := by
  funext t
  show SyncM.bind (SyncM.bind m f) g t = SyncM.bind m (fun a => SyncM.bind (f a) g) t
  rcases hmt : m t with ⟨r, t1⟩
  cases r <;> simp [SyncM.bind, hmt]

theorem SyncM.pure_bind (a : α) (f : α → SyncM β) : (pure a : SyncM α) >>= f = f a := rfl

theorem SyncM.pure_bind' (a : α) (f : α → SyncM β) : SyncM.pure a >>= f = f a := rfl

theorem emitsOnly_pure (P : Call → Bool) (a : α) : EmitsOnly P (SyncM.pure a) := by
  intro t
  exact ⟨[], by simp [SyncM.pure], by simp⟩

theorem emitsOnly_liftE (P : Call → Bool) (r : Except Err α) : EmitsOnly P (liftE r) := by
  intro t
  exact ⟨[], by simp [liftE], by simp⟩

theorem emitsOnly_callPrim {P : Call → Bool} {c : Call} (h : P c = true)
    (answer : List Call → Except Err α) : EmitsOnly P (callPrim c answer) := by
  intro t
  refine ⟨[c], rfl, ?_⟩
  intro x hx
  rcases List.mem_singleton.mp hx with rfl
  exact h

theorem emitsOnly_bind {P : Call → Bool} {m : SyncM α} {f : α → SyncM β}
    (hm : EmitsOnly P m) (hf : ∀ a, EmitsOnly P (f a)) : EmitsOnly P (m >>= f) := by
  intro t
  obtain ⟨d1, h1, hp1⟩ := hm t
  rcases hmt : m t with ⟨r, t1⟩
  rw [hmt] at h1
  simp only at h1
  cases r with
  | ok a =>
    obtain ⟨d2, h2, hp2⟩ := hf a t1
    refine ⟨d1 ++ d2, ?_, ?_⟩
    · show (SyncM.bind m f t).2 = t ++ (d1 ++ d2)
      simp only [SyncM.bind, hmt]
      rw [h2, h1, List.append_assoc]
    · intro c hc
      rcases List.mem_append.mp hc with h | h
      · exact hp1 c h
      · exact hp2 c h
  | error e =>
    refine ⟨d1, ?_, hp1⟩
    show (SyncM.bind m f t).2 = t ++ d1
    simp only [SyncM.bind, hmt]
    exact h1

theorem emitsOnly_forEach {P : Call → Bool} {f : α → SyncM Unit}
    (hf : ∀ a, EmitsOnly P (f a)) : ∀ xs : List α, EmitsOnly P (forEach xs f)
  | [] => emitsOnly_pure P ()
  | x :: rest => by
    show EmitsOnly P (f x >>= fun _ => forEach rest f)
    exact emitsOnly_bind (hf x) (fun _ => emitsOnly_forEach hf rest)

theorem emitsOnly_foldEach {P : Call → Bool} {f : β → α → SyncM β}
    (hf : ∀ b a, EmitsOnly P (f b a)) :
    ∀ (xs : List α) (init : β), EmitsOnly P (foldEach xs init f)
  | [], init => emitsOnly_pure P init
  | x :: rest, init => by
    show EmitsOnly P (f init x >>= fun acc => foldEach rest acc f)
    exact emitsOnly_bind (hf init x) (fun acc => emitsOnly_foldEach hf rest acc)

theorem emitsOnly_tryOr {P : Call → Bool} {m : SyncM α} (hm : EmitsOnly P m) (dflt : α) :
    EmitsOnly P (tryOr m dflt) := by
  intro t
  obtain ⟨d, hd, hp⟩ := hm t
  rcases hmt : m t with ⟨r, t1⟩
  rw [hmt] at hd
  simp only at hd
  cases r <;> exact ⟨d, by simp [tryOr, hmt]; exact hd, hp⟩

theorem emitsOnly_ite {P : Call → Bool} {m1 m2 : SyncM α} (b : Bool)
    (h1 : EmitsOnly P m1) (h2 : EmitsOnly P m2) :
    EmitsOnly P (if b then m1 else m2) := by
  cases b
  · simpa using h2
  · simpa using h1

/-- From an `EmitsOnly` fact, every call of a run from the empty trace
satisfies the classifier. -/
theorem emitsOnly_run {P : Call → Bool} {m : SyncM α} (hm : EmitsOnly P m) :
    ∀ c ∈ (SyncM.run m).2, P c = true := by
  obtain ⟨d, hd, hp⟩ := hm []
  intro c hc
  rw [SyncM.run] at hc
  rw [hd] at hc
  simp only [List.nil_append] at hc
  exact hp c hc

/-! ### Traces of the individual phases -/

theorem readPhase_emits (cfg : Config) (genv : GEnv) (env : Env) (query : String) :
    EmitsOnly isReadCall (readPhase cfg genv env query) := by
  refine emitsOnly_bind (emitsOnly_liftE _ _) (fun a => ?_)
  refine emitsOnly_bind (emitsOnly_liftE _ _) (fun b => ?_)
  refine emitsOnly_bind (emitsOnly_callPrim rfl _) (fun c => ?_)
  refine emitsOnly_bind (emitsOnly_callPrim rfl _) (fun d => ?_)
  refine emitsOnly_bind ?_ (fun e => emitsOnly_pure _ _)
  refine emitsOnly_foldEach (fun acc g => ?_) _ _
  refine emitsOnly_bind ?_ (fun us => emitsOnly_pure _ _)
  exact emitsOnly_foldEach (fun us u =>
    emitsOnly_bind (emitsOnly_callPrim rfl _) (fun found => emitsOnly_pure _ _)) _ _

theorem stepDeleteUsers_emits (env : Env) (l : List AwsUser) :
    EmitsOnly deleteUsersCall (stepDeleteUsers env l) :=
  emitsOnly_forEach (fun u =>
    emitsOnly_bind (emitsOnly_callPrim rfl _) (fun uu => emitsOnly_callPrim rfl _)) l

theorem stepUpdateUsers_emits (env : Env) (l : List AwsUser) :
    EmitsOnly updateUsersCall (stepUpdateUsers env l) :=
  emitsOnly_forEach (fun u =>
    emitsOnly_bind (emitsOnly_callPrim rfl _) (fun uu =>
      emitsOnly_bind (emitsOnly_callPrim rfl _) (fun _ => emitsOnly_pure _ _))) l

theorem stepCreateUsers_emits (env : Env) (l : List AwsUser) :
    EmitsOnly createUsersCall (stepCreateUsers env l) :=
  emitsOnly_forEach (fun u =>
    emitsOnly_bind (emitsOnly_callPrim rfl _) (fun _ => emitsOnly_pure _ _)) l

theorem stepCreateGroups_emits (env : Env) (l : List AwsGroup) :
    EmitsOnly createGroupsCall (stepCreateGroups env l) :=
  emitsOnly_foldEach (fun acc g =>
    emitsOnly_bind (emitsOnly_callPrim rfl _) (fun _ => emitsOnly_pure _ _)) l []

theorem stepAddMembers_emits (env : Env) (ggu : List (String × List GoogleUser))
    (allG : List AwsGroup) : EmitsOnly addMembersCall (stepAddMembers env ggu allG) := by
  refine emitsOnly_forEach (fun g => ?_) allG
  cases lookupMap ggu (awsGroupKey g) with
  | none => exact emitsOnly_pure _ _
  | some members =>
      exact emitsOnly_forEach (fun gu =>
        emitsOnly_bind (emitsOnly_callPrim rfl _) (fun uu => emitsOnly_callPrim rfl _)) members

theorem reconcileAdds_emits (env : Env) (ggu : List (String × List GoogleUser)) (k : String) :
    EmitsOnly reconcileAddCall
      (forEach (lookupList ggu k) (fun googleUser => do
        let awsUserFull ← callFindUserByEmail env googleUser.primaryEmail
        let b ← callIsUserInGroup env awsUserFull.username k
        if b then SyncM.pure ()
        else callAddUserToGroup env awsUserFull.username k)) := by
  refine emitsOnly_forEach (fun gu => ?_) _
  refine emitsOnly_bind (emitsOnly_callPrim rfl _) (fun uu => ?_)
  refine emitsOnly_bind (emitsOnly_callPrim rfl _) (fun b => ?_)
  exact emitsOnly_ite b (emitsOnly_pure _ _) (emitsOnly_callPrim rfl _)

theorem reconcileRemoves_emits (env : Env) (l : List AwsUser) (k : String) :
    EmitsOnly reconcileRemoveCall
      (forEach l (fun awsUser => callRemoveUserFromGroup env awsUser.username k)) :=
  emitsOnly_forEach (fun u => emitsOnly_callPrim rfl _) l

theorem stepDeleteGroups_emits (env : Env) (l : List AwsGroup) :
    EmitsOnly deleteGroupsCall (stepDeleteGroups env l) :=
  emitsOnly_forEach (fun g =>
    emitsOnly_bind (emitsOnly_callPrim rfl _) (fun gg => emitsOnly_callPrim rfl _)) l

/-- Applying a bind in the sync monad. -/
theorem SyncM.bind_apply (m : SyncM α) (f : α → SyncM β) (t : List Call) :
    (m >>= f) t = match m t with
      | (Except.ok a, t1) => f a t1
      | (Except.error e, t1) => (Except.error e, t1) := rfl

/-- Running a component from trace `t` either succeeds or aborts, and
in both cases the trace grows by calls satisfying the component's
classifier. -/
theorem run_split {m : SyncM α} {P : Call → Bool} (hm : EmitsOnly P m) (t : List Call) :
    (∃ e d, m t = (Except.error e, t ++ d) ∧ ∀ c ∈ d, P c = true)
    ∨ ∃ a d, m t = (Except.ok a, t ++ d) ∧ ∀ c ∈ d, P c = true := by
  obtain ⟨d, hd, hp⟩ := hm t
  rcases hmt : m t with ⟨r, t1⟩
  rw [hmt] at hd
  simp only at hd
  cases r with
  | ok a =>
    right
    exact ⟨a, d, by rw [hd], hp⟩
  | error e =>
    left
    exact ⟨e, d, by rw [hd], hp⟩

/-- Trace of a loop whose body is an add part followed by a remove
part: the trace is a per-iteration concatenation with the adds of each
iteration preceding its removes. -/
theorem forEach_pairs {A R : Call → Bool} {f g : α → SyncM Unit}
    (hf : ∀ a, EmitsOnly A (f a)) (hg : ∀ a, EmitsOnly R (g a)) :
    ∀ (xs : List α) (t : List Call),
      ∃ pairs : List (List Call × List Call),
        (forEach xs (fun a => f a >>= fun _ => g a) t).2
          = t ++ (pairs.map (fun p => p.1 ++ p.2)).flatten ∧
        ∀ p ∈ pairs, (∀ c ∈ p.1, A c = true) ∧ (∀ c ∈ p.2, R c = true)
  | [], t => ⟨[], by
      show (SyncM.pure () t).2 = t ++ List.flatten (List.map _ [])
      simp [SyncM.pure], by simp⟩
  | x :: rest, t => by
    have hstep : forEach (x :: rest) (fun a => f a >>= fun _ => g a) t
        = SyncM.bind (SyncM.bind (f x) (fun _ => g x))
            (fun _ => forEach rest (fun a => f a >>= fun _ => g a)) t := rfl
    obtain ⟨df, hdf, hpf⟩ := hf x t
    rcases hfx : f x t with ⟨rf, t1⟩
    rw [hfx] at hdf
    simp only at hdf
    cases rf with
    | error e =>
      refine ⟨[(df, [])], ?_, ?_⟩
      · rw [hstep]
        simp [SyncM.bind, hfx, hdf]
      · intro p hp
        rcases List.mem_singleton.mp hp with rfl
        exact ⟨hpf, by simp⟩
    | ok u =>
      obtain ⟨dg, hdg, hpg⟩ := hg x t1
      rcases hgx : g x t1 with ⟨rg, t2⟩
      rw [hgx] at hdg
      simp only at hdg
      cases rg with
      | error e =>
        refine ⟨[(df, dg)], ?_, ?_⟩
        · rw [hstep]
          simp only [SyncM.bind, hfx, hgx]
          simp [hdg, hdf, List.append_assoc]
        · intro p hp
          rcases List.mem_singleton.mp hp with rfl
          exact ⟨hpf, hpg⟩
      | ok v =>
        obtain ⟨pairs', hrec, hprec⟩ := forEach_pairs hf hg rest t2
        refine ⟨(df, dg) :: pairs', ?_, ?_⟩
        · rw [hstep]
          simp only [SyncM.bind, hfx, hgx]
          rw [hrec, hdg, hdf]
          simp [List.append_assoc]
        · intro p hp
          rcases List.mem_cons.mp hp with rfl | hp'
          · exact ⟨hpf, hpg⟩
          · exact hprec p hp'

/-- The equal-groups reconcile step produces, for each group in turn,
its add-half calls followed by its remove-half calls. -/
theorem stepReconcile_pairs (env : Env) (ggu : List (String × List GoogleUser))
    (delMap : String → List AwsUser) (gs : List AwsGroup) (t : List Call) :
    ∃ pairs : List (List Call × List Call),
      (stepReconcileEqualGroups env ggu delMap gs t).2
          = t ++ (pairs.map (fun p => p.1 ++ p.2)).flatten ∧
      ∀ p ∈ pairs, (∀ c ∈ p.1, reconcileAddCall c = true) ∧
        (∀ c ∈ p.2, reconcileRemoveCall c = true) :=
  forEach_pairs (fun a => reconcileAdds_emits env ggu (awsGroupKey a))
    (fun a => reconcileRemoves_emits env (delMap (awsGroupKey a)) (awsGroupKey a)) gs t

/-- **C2** (confirmed).  Fixed apply order of `SyncGroupsUsers`: the
run is the sequential composition of the read phase and the seven apply
steps — delete users, update users, create users, create groups, add
members to groups appearing upstream, reconcile equal groups, delete
groups — where the monad's bind runs a step only after all previous
steps returned without error and propagates the first error past all
remaining steps; and every run's trace splits into consecutive
segments, one per phase, each containing only that phase's calls, with
the equal-group segment formed group by group, the adds of each group
before its removes. -/
theorem syncGroupsUsers_ordered_apply (cfg : Config) (genv : GEnv) (env : Env) (query : String) :
    (syncGroupsUsers cfg genv env query
        = readPhase cfg genv env query >>= orderedApply env) ∧
    ∃ d0 d1 d2 d3 d4 d5 d6 d7 : List Call,
      (SyncM.run (syncGroupsUsers cfg genv env query)).2
          = d0 ++ (d1 ++ (d2 ++ (d3 ++ (d4 ++ (d5 ++ (d6 ++ d7)))))) ∧
      (∀ c ∈ d0, isReadCall c = true) ∧
      (∀ c ∈ d1, deleteUsersCall c = true) ∧
      (∀ c ∈ d2, updateUsersCall c = true) ∧
      (∀ c ∈ d3, createUsersCall c = true) ∧
      (∀ c ∈ d4, createGroupsCall c = true) ∧
      (∀ c ∈ d5, addMembersCall c = true) ∧
      (∃ pairs : List (List Call × List Call),
        d6 = (pairs.map (fun p => p.1 ++ p.2)).flatten ∧
        ∀ p ∈ pairs, (∀ c ∈ p.1, reconcileAddCall c = true) ∧
          (∀ c ∈ p.2, reconcileRemoveCall c = true)) ∧
      (∀ c ∈ d7, deleteGroupsCall c = true) := by
  have hA : syncGroupsUsers cfg genv env query
      = readPhase cfg genv env query >>= orderedApply env := by
    simp only [syncGroupsUsers, readPhase, orderedApply, SyncM.bind_assoc, SyncM.pure_bind,
      SyncM.pure_bind']
  refine ⟨hA, ?_⟩
  rw [SyncM.run, hA]
  rcases run_split (readPhase_emits cfg genv env query) [] with
    ⟨e, d0, h0, hp0⟩ | ⟨s, d0, h0, hp0⟩
  · rw [List.nil_append] at h0
    refine ⟨d0, [], [], [], [], [], [], [], ?_, hp0, by simp, by simp, by simp, by simp,
      by simp, ⟨[], by simp, by simp⟩, by simp⟩
    simp [SyncM.bind_apply, h0]
  rw [List.nil_append] at h0
  simp only [SyncM.bind_apply, h0, orderedApply]
  rcases run_split (stepDeleteUsers_emits env (getUserOperations s.awsUsers s.googleUsers).2.1)
      d0 with ⟨e1, d1, h1, hp1⟩ | ⟨a1, d1, h1, hp1⟩
  · refine ⟨d0, d1, [], [], [], [], [], [], ?_, hp0, hp1, by simp, by simp, by simp,
      by simp, ⟨[], by simp, by simp⟩, by simp⟩
    rw [h1]
    simp [List.append_assoc]
  simp only [SyncM.bind_apply, h1]
  rcases run_split (stepUpdateUsers_emits env (getUserOperations s.awsUsers s.googleUsers).2.2.1)
      (d0 ++ d1) with ⟨e2, d2, h2, hp2⟩ | ⟨a2, d2, h2, hp2⟩
  · refine ⟨d0, d1, d2, [], [], [], [], [], ?_, hp0, hp1, hp2, by simp, by simp,
      by simp, ⟨[], by simp, by simp⟩, by simp⟩
    rw [h2]
    simp [List.append_assoc]
  simp only [SyncM.bind_apply, h2]
  rcases run_split (stepCreateUsers_emits env (getUserOperations s.awsUsers s.googleUsers).1)
      (d0 ++ d1 ++ d2) with ⟨e3, d3, h3, hp3⟩ | ⟨a3, d3, h3, hp3⟩
  · refine ⟨d0, d1, d2, d3, [], [], [], [], ?_, hp0, hp1, hp2, hp3, by simp,
      by simp, ⟨[], by simp, by simp⟩, by simp⟩
    rw [h3]
    simp [List.append_assoc]
  simp only [SyncM.bind_apply, h3]
  rcases run_split (stepCreateGroups_emits env (getGroupOperations s.awsGroups s.googleGroups).1)
      (d0 ++ d1 ++ d2 ++ d3) with ⟨e4, d4, h4, hp4⟩ | ⟨newGroups, d4, h4, hp4⟩
  · refine ⟨d0, d1, d2, d3, d4, [], [], [], ?_, hp0, hp1, hp2, hp3, hp4,
      by simp, ⟨[], by simp, by simp⟩, by simp⟩
    rw [h4]
    simp [List.append_assoc]
  simp only [SyncM.bind_apply, h4]
  rcases run_split (stepAddMembers_emits env s.googleGroupsUsers (s.awsGroups ++ newGroups))
      (d0 ++ d1 ++ d2 ++ d3 ++ d4) with ⟨e5, d5, h5, hp5⟩ | ⟨a5, d5, h5, hp5⟩
  · refine ⟨d0, d1, d2, d3, d4, d5, [], [], ?_, hp0, hp1, hp2, hp3, hp4, hp5,
      ⟨[], by simp, by simp⟩, by simp⟩
    rw [h5]
    simp [List.append_assoc]
  simp only [SyncM.bind_apply, h5]
  obtain ⟨pairs, hpr, hpp⟩ := stepReconcile_pairs env s.googleGroupsUsers
    (getGroupUsersOperations s.googleGroupsUsers s.awsGroupsUsers).1
    (getGroupOperations s.awsGroups s.googleGroups).2.2
    (d0 ++ d1 ++ d2 ++ d3 ++ d4 ++ d5)
  rcases h6 : stepReconcileEqualGroups env s.googleGroupsUsers
      (getGroupUsersOperations s.googleGroupsUsers s.awsGroupsUsers).1
      (getGroupOperations s.awsGroups s.googleGroups).2.2
      (d0 ++ d1 ++ d2 ++ d3 ++ d4 ++ d5) with ⟨r6, t6⟩
  rw [h6] at hpr
  simp only at hpr
  cases r6 with
  | error e6 =>
    refine ⟨d0, d1, d2, d3, d4, d5, (pairs.map (fun p => p.1 ++ p.2)).flatten, [],
      ?_, hp0, hp1, hp2, hp3, hp4, hp5, ⟨pairs, rfl, hpp⟩, by simp⟩
    simp only [SyncM.bind_apply, h6]
    rw [hpr]
    simp [List.append_assoc]
  | ok a6 =>
    simp only [SyncM.bind_apply, h6]
    subst hpr
    rcases run_split
        (stepDeleteGroups_emits env (getGroupOperations s.awsGroups s.googleGroups).2.1)
        (d0 ++ d1 ++ d2 ++ d3 ++ d4 ++ d5 ++ (pairs.map (fun p => p.1 ++ p.2)).flatten)
        with ⟨e7, d7, h7, hp7⟩ | ⟨a7, d7, h7, hp7⟩ <;>
      · refine ⟨d0, d1, d2, d3, d4, d5, (pairs.map (fun p => p.1 ++ p.2)).flatten, d7,
          ?_, hp0, hp1, hp2, hp3, hp4, hp5, ⟨pairs, rfl, hpp⟩, hp7⟩
        rw [h7]
        simp [List.append_assoc]

/-- **C3** (confirmed).  Dry-run makes the run read-only: with the
dry-run flag set, the first `SyncGroupsUsers` variant returns right
after computing the diff, so whatever the environments answer, its
trace contains no call to any of the seven mutation methods. -/
theorem syncGroupsUsersV1_dryRun_readonly (cfg : Config) (genv : GEnv) (env : Env)
    (query : String) (hdry : cfg.dryRun = true) :
    ∀ c ∈ (SyncM.run (syncGroupsUsersV1 cfg genv env query)).2, isMutationCall c = false := by
  have h : EmitsOnly isReadCall (syncGroupsUsersV1 cfg genv env query) := by
    refine emitsOnly_bind (emitsOnly_liftE _ _) (fun a => ?_)
    refine emitsOnly_bind (emitsOnly_liftE _ _) (fun b => ?_)
    refine emitsOnly_bind (emitsOnly_callPrim rfl _) (fun c => ?_)
    refine emitsOnly_bind ?_ (fun d => ?_)
    · exact emitsOnly_foldEach (fun acc email =>
        emitsOnly_bind (emitsOnly_callPrim rfl _) (fun u => emitsOnly_pure _ _)) _ _
    refine emitsOnly_bind (emitsOnly_tryOr ?_ _) (fun e => ?_)
    · exact emitsOnly_foldEach (fun acc g =>
        emitsOnly_bind
          (emitsOnly_foldEach (fun us u =>
            emitsOnly_bind (emitsOnly_callPrim rfl _) (fun found => emitsOnly_pure _ _)) _ _)
          (fun us => emitsOnly_pure _ _)) _ _
    simpa [hdry] using emitsOnly_pure isReadCall ()
  intro c hc
  have hr := emitsOnly_run h c hc
  simpa [isReadCall] using hr

/-- Witness for the dry-run theorem: a concrete dry-run configuration
against a Google directory with one group and user and an empty
downstream, a non-empty diff, and the mutation-free trace. -/
theorem syncGroupsUsersV1_dryRun_readonly_witness :
    cfgDry.dryRun = true ∧
    (getUserOperations [] [gUserUpd]).1 ≠ [] ∧
    ∀ c ∈ (SyncM.run (syncGroupsUsersV1 cfgDry genvUpd envGhost "")).2,
      isMutationCall c = false :=
  ⟨rfl, by decide, syncGroupsUsersV1_dryRun_readonly cfgDry genvUpd envGhost "" rfl⟩

/-- **C1** (code bug).  Convergence of one full apply pass fails on the
user-attribute clause: in the scenario above the downstream user is
classified `toUpdate` with the upstream-derived record (given name
`NewGiven`, active `true`), the run completes without error, yet the
only `UpdateUser` call carries the re-fetched old record, so the run
ends with the stale given name `OldGiven` — and a second run classifies
the same user `toUpdate` again, so the pass did not converge. -/
theorem syncGroupsUsers_update_discards_upstream_attributes :
    (getUserOperations w0Upd.users [gUserUpd]).2.2.1 =
      [NewUser "NewGiven" "Fam" "a@x.com" true] ∧
    (syncGroupsUsers cfgEmpty genvUpd (worldEnv w0Upd) "").run.1 = Except.ok () ∧
    Call.updateUser oldUserUpd ∈ (syncGroupsUsers cfgEmpty genvUpd (worldEnv w0Upd) "").run.2 ∧
    (replay w0Upd (syncGroupsUsers cfgEmpty genvUpd (worldEnv w0Upd) "").run.2).users =
      [oldUserUpd] ∧
    oldUserUpd.givenName ≠ gUserUpd.givenName ∧
    (getUserOperations
        (replay w0Upd (syncGroupsUsers cfgEmpty genvUpd (worldEnv w0Upd) "").run.2).users
        [gUserUpd]).2.2.1 ≠ [] := by
  refine ⟨by decide, rfl, by decide, by decide, by decide, by decide⟩

end Ssosync

namespace Ssosync

/-- **C8** (counterexample).  "NotFound is treated as success in every
delete-user path" fails for `SyncGroupsUsers`: with one downstream-only
user whose re-fetch reports `ErrUserNotFound`, the delete list is
non-empty, yet the run aborts with that error immediately after the
lookup — no user is skipped and nothing after the lookup runs. -/
theorem syncGroupsUsers_deleteLoop_aborts_on_notFound :
    (getUserOperations [userGhost] []).2.1 = [NewUser "B" "B" "b@x.com" true] ∧
    (SyncM.run (syncGroupsUsers cfgEmpty genvEmpty envGhost "")).1
      = Except.error Err.userNotFound ∧
    (SyncM.run (syncGroupsUsers cfgEmpty genvEmpty envGhost "")).2
      = [Call.getGroups, Call.getUsers, Call.findUserByEmail "b@x.com"] := by
  refine ⟨by decide, rfl, by decide⟩

/-- **C8** (amended).  NotFound is locally handled only in the
deleted-users path of `SyncUsers`: there a `ErrUserNotFound` lookup
result is treated as success and the loop moves to the next user
without deleting, any other lookup error is returned immediately, and a
deletion failure is returned immediately; in the delete-user loop of
`SyncGroupsUsers`, by contrast, every lookup failure — `ErrUserNotFound`
included — is returned immediately, aborting the remaining sequence. -/
theorem notFound_sole_handled_amended :
    (∀ (env : Env) (u : GoogleUser) (rest : List GoogleUser) (t : List Call),
      env.findUserByEmail t u.primaryEmail = Except.error Err.userNotFound →
      syncUsersDeletedLoop env (u :: rest) t
        = syncUsersDeletedLoop env rest (t ++ [Call.findUserByEmail u.primaryEmail])) ∧
    (∀ (env : Env) (u : GoogleUser) (rest : List GoogleUser) (t : List Call) (e : Err),
      env.findUserByEmail t u.primaryEmail = Except.error e → e ≠ Err.userNotFound →
      syncUsersDeletedLoop env (u :: rest) t
        = (Except.error e, t ++ [Call.findUserByEmail u.primaryEmail])) ∧
    (∀ (env : Env) (u : GoogleUser) (rest : List GoogleUser) (t : List Call)
        (uu : AwsUser) (e : Err),
      env.findUserByEmail t u.primaryEmail = Except.ok uu →
      env.deleteUser (t ++ [Call.findUserByEmail u.primaryEmail]) uu = Except.error e →
      syncUsersDeletedLoop env (u :: rest) t
        = (Except.error e, t ++ [Call.findUserByEmail u.primaryEmail, Call.deleteUser uu])) ∧
    (∀ (env : Env) (u : AwsUser) (rest : List AwsUser) (t : List Call) (e : Err),
      env.findUserByEmail t u.username = Except.error e →
      stepDeleteUsers env (u :: rest) t
        = (Except.error e, t ++ [Call.findUserByEmail u.username])) := by
  refine ⟨?_, ?_, ?_, ?_⟩
  · intro env u rest t h
    show SyncM.bind (attempt (callFindUserByEmail env u.primaryEmail)) _ t = _
    simp [SyncM.bind, attempt, callFindUserByEmail, callPrim, h]
  · intro env u rest t e h hne
    show SyncM.bind (attempt (callFindUserByEmail env u.primaryEmail)) _ t = _
    cases e with
    | userNotFound => exact absurd rfl hne
    | groupNotFound => simp [SyncM.bind, attempt, callFindUserByEmail, callPrim, h, liftE]
    | other n => simp [SyncM.bind, attempt, callFindUserByEmail, callPrim, h, liftE]
  · intro env u rest t uu e h hd
    show SyncM.bind (attempt (callFindUserByEmail env u.primaryEmail)) _ t = _
    simp [SyncM.bind, SyncM.bind_apply, attempt, callFindUserByEmail, callDeleteUser,
      callPrim, h, hd, List.append_assoc]
  · intro env u rest t e h
    show SyncM.bind (callFindUserByEmail env u.username >>= fun uu => callDeleteUser env uu)
        _ t = _
    simp [SyncM.bind, SyncM.bind_apply, callFindUserByEmail, callDeleteUser, callPrim, h]

/-- Witness for the amended NotFound-handling theorem: concrete
environments exercising the continue-on-NotFound case of `SyncUsers`,
the abort-on-other-error case, the abort-on-delete-failure case, and
the abort-on-NotFound case of the `SyncGroupsUsers` delete loop. -/
theorem notFound_sole_handled_amended_witness :
    (syncUsersDeletedLoop envGhost [gUserUpd] []
      = syncUsersDeletedLoop envGhost [] [Call.findUserByEmail "a@x.com"]) ∧
    (syncUsersDeletedLoop envWrongErr [gUserUpd] []
      = (Except.error (Err.other 5), [Call.findUserByEmail "a@x.com"])) ∧
    (syncUsersDeletedLoop envDelFail [gUserUpd] []
      = (Except.error (Err.other 3),
          [Call.findUserByEmail "a@x.com", Call.deleteUser userGhost])) ∧
    (stepDeleteUsers envGhost [userGhost] []
      = (Except.error Err.userNotFound, [Call.findUserByEmail "b@x.com"])) :=
  ⟨notFound_sole_handled_amended.1 envGhost gUserUpd [] [] rfl,
   notFound_sole_handled_amended.2.1 envWrongErr gUserUpd [] [] (Err.other 5) rfl (by decide),
   notFound_sole_handled_amended.2.2.1 envDelFail gUserUpd [] [] userGhost (Err.other 3) rfl rfl,
   notFound_sole_handled_amended.2.2.2 envGhost userGhost [] [] Err.userNotFound rfl⟩

end Ssosync

namespace Ssosync

/-! ### Lookup lemmas for the Go-map embedding -/

theorem lookupLast_mem_key {l : List α} {key : α → String} {k : String} {a : α}
    (h : lookupLast l key k = some a) : a ∈ l ∧ key a = k := by
  unfold lookupLast at h
  refine ⟨List.mem_reverse.mp (List.mem_of_find?_eq_some h), ?_⟩
  have h1 := List.find?_some h
  simpa using h1

theorem lookupLast_eq_none_iff {l : List α} {key : α → String} {k : String} :
    lookupLast l key k = none ↔ ∀ a ∈ l, key a ≠ k := by
  unfold lookupLast
  rw [List.find?_eq_none]
  constructor
  · intro h a ha
    have := h a (List.mem_reverse.mpr ha)
    simpa using this
  · intro h a ha
    have := h a (List.mem_reverse.mp ha)
    simpa using this

theorem lookupLast_self_of_nodup {l : List α} {key : α → String}
    (hnd : (l.map key).Nodup) {a : α} (ha : a ∈ l) :
    lookupLast l key (key a) = some a := by
  rcases hl : lookupLast l key (key a) with _ | b
  · rw [lookupLast_eq_none_iff] at hl
    exact absurd rfl (hl a ha)
  · obtain ⟨hbl, hbk⟩ := lookupLast_mem_key hl
    have : b = a := List.inj_on_of_nodup_map hnd hbl ha hbk
    rw [this]

/-! ### Membership diff (C6) -/

/-- **C6** (confirmed).  `getGroupUsersOperations` places each
downstream member of each group into exactly one of its two outputs:
into `equals` when the member's key is present in the group's upstream
member set, into `delete` when it is absent — including when the group
has no upstream entry at all, in which case `upstreamHasMember` is
false for every member. -/
theorem getGroupUsersOperations_classifies
    (gGroupsUsers : List (String × List GoogleUser))
    (awsGroupsUsers : List (String × List AwsUser))
    (n : String) (users : List AwsUser)
    (h : lookupMap awsGroupsUsers n = some users) :
    (∀ u ∈ users,
      (upstreamHasMember gGroupsUsers n u.username = true →
        u ∈ (getGroupUsersOperations gGroupsUsers awsGroupsUsers).2 n ∧
        u ∉ (getGroupUsersOperations gGroupsUsers awsGroupsUsers).1 n) ∧
      (upstreamHasMember gGroupsUsers n u.username = false →
        u ∈ (getGroupUsersOperations gGroupsUsers awsGroupsUsers).1 n ∧
        u ∉ (getGroupUsersOperations gGroupsUsers awsGroupsUsers).2 n)) ∧
    (lookupMap gGroupsUsers n = none →
      ∀ u ∈ users, upstreamHasMember gGroupsUsers n u.username = false) := by
  constructor
  · intro u hu
    constructor
    · intro hpres
      constructor
      · simp [getGroupUsersOperations, h, List.mem_filter, hu, hpres]
      · simp [getGroupUsersOperations, h, List.mem_filter, hpres]
    · intro habs
      constructor
      · simp [getGroupUsersOperations, h, List.mem_filter, hu, habs]
      · simp [getGroupUsersOperations, h, List.mem_filter, habs]
  · intro hnone u hu
    simp [upstreamHasMember, hnone]

/-- Witness for the membership diff: the literal scenario, downstream
members `[a,b,c]` against upstream members `[a,c]` in group `g`: `b`
is classified delete, `a` and `c` equal, and the two output lists are
exactly `[b]` and `[a,c]`. -/
theorem getGroupUsersOperations_classifies_witness :
    ((getGroupUsersOperations gguScenario aguScenario).1 "g" = [uMemB] ∧
     (getGroupUsersOperations gguScenario aguScenario).2 "g" = [uMemA, uMemC]) ∧
    (uMemB ∈ (getGroupUsersOperations gguScenario aguScenario).1 "g" ∧
     uMemB ∉ (getGroupUsersOperations gguScenario aguScenario).2 "g") :=
  ⟨by decide,
   ((getGroupUsersOperations_classifies gguScenario aguScenario "g"
      [uMemA, uMemB, uMemC] rfl).1 uMemB (by decide)).2 (by decide)⟩

end Ssosync

namespace Ssosync

/-! ### Polarity translation (C4) -/

/-- Closed form of the update output of `getUserOperations`. -/
theorem getUserOperations_update_eq (A : List AwsUser) (G : List GoogleUser) :
    (getUserOperations A G).2.2.1 = G.filterMap (fun gUser =>
      match lookupLast A (fun u => u.username) gUser.primaryEmail with
      | some awsUser =>
          if userNeedsUpdate awsUser gUser then
            some (NewUser gUser.givenName gUser.familyName gUser.primaryEmail (!gUser.suspended))
          else none
      | none => none) := rfl

/-- Closed form of the add output of `getUserOperations`. -/
theorem getUserOperations_add_eq (A : List AwsUser) (G : List GoogleUser) :
    (getUserOperations A G).1 = G.filterMap (fun gUser =>
      match lookupLast A (fun u => u.username) gUser.primaryEmail with
      | some _ => none
      | none =>
          some (NewUser gUser.givenName gUser.familyName gUser.primaryEmail (!gUser.suspended))) :=
  rfl

/-- **C4** (confirmed).  Polarity translation in the user diff: a
downstream user with `active = true` whose upstream counterpart (same
email key) has `suspended = true` is classified `toUpdate` and the
produced record has `active = false`; and every record produced for
`toAdd` or `toUpdate` is built by `NewUser` from an upstream user with
`active = NOT suspended`. -/
theorem getUserOperations_polarity :
    (∀ (A : List AwsUser) (G : List GoogleUser) (a : AwsUser) (g : GoogleUser),
      (A.map (fun u => u.username)).Nodup →
      a ∈ A → g ∈ G → a.username = g.primaryEmail →
      a.active = true → g.suspended = true →
      NewUser g.givenName g.familyName g.primaryEmail false ∈ (getUserOperations A G).2.2.1 ∧
      (NewUser g.givenName g.familyName g.primaryEmail false).active = false) ∧
    (∀ (A : List AwsUser) (G : List GoogleUser) (r : AwsUser),
      (r ∈ (getUserOperations A G).1 ∨ r ∈ (getUserOperations A G).2.2.1) →
      ∃ g ∈ G, r = NewUser g.givenName g.familyName g.primaryEmail (!g.suspended) ∧
        r.active = !g.suspended) := by
  constructor
  · intro A G a g hnd ha hg hkey hact hsus
    have hl : lookupLast A (fun u => u.username) g.primaryEmail = some a := by
      rw [← hkey]
      exact lookupLast_self_of_nodup hnd ha
    have hupd : userNeedsUpdate a g = true := by
      simp [userNeedsUpdate, hact, hsus]
    refine ⟨?_, rfl⟩
    rw [getUserOperations_update_eq]
    refine List.mem_filterMap.mpr ⟨g, hg, ?_⟩
    rw [hl]
    simp [hupd, hsus]
  · intro A G r hr
    cases hr with
    | inl h =>
      rw [getUserOperations_add_eq] at h
      obtain ⟨g, hg, hf⟩ := List.mem_filterMap.mp h
      rcases hl : lookupLast A (fun u => u.username) g.primaryEmail with _ | a
      · rw [hl] at hf
        refine ⟨g, hg, ?_, ?_⟩
        · exact (Option.some.inj hf).symm
        · rw [← Option.some.inj hf]
          rfl
      · rw [hl] at hf
        simp at hf
    | inr h =>
      rw [getUserOperations_update_eq] at h
      obtain ⟨g, hg, hf⟩ := List.mem_filterMap.mp h
      rcases hl : lookupLast A (fun u => u.username) g.primaryEmail with _ | a
      · rw [hl] at hf
        simp at hf
      · rw [hl] at hf
        rcases hupd : userNeedsUpdate a g
        · simp [hupd] at hf
        · simp only [hupd, if_true, Option.some.injEq] at hf
          refine ⟨g, hg, hf.symm, ?_⟩
          rw [← hf]
          rfl

/-- Witness for the polarity theorem: the downstream record of
`a@x.com` is active and its upstream account suspended; the update
output contains the polarity-translated record. -/
theorem getUserOperations_polarity_witness :
    NewUser "NewGiven" "Fam" "a@x.com" false
        ∈ (getUserOperations [oldUserUpd] [gSusp]).2.2.1 ∧
    (NewUser "NewGiven" "Fam" "a@x.com" false).active = false :=
  getUserOperations_polarity.1 [oldUserUpd] [gSusp] oldUserUpd gSusp
    (by decide) (by decide) (by decide) rfl rfl rfl

end Ssosync

namespace Ssosync

/-! ### Key-membership characterizations of the diff outputs (C5) -/

/-- Closed form of the equals output of `getUserOperations`. -/
theorem getUserOperations_equals_eq (A : List AwsUser) (G : List GoogleUser) :
    (getUserOperations A G).2.2.2 = G.filterMap (fun gUser =>
      match lookupLast A (fun u => u.username) gUser.primaryEmail with
      | some awsUser => if userNeedsUpdate awsUser gUser then none else some awsUser
      | none => none) := rfl

/-- Closed form of the delete output of `getUserOperations`. -/
theorem getUserOperations_del_eq (A : List AwsUser) (G : List GoogleUser) :
    (getUserOperations A G).2.1 = A.filterMap (fun awsUser =>
      if G.any (fun g => g.primaryEmail == awsUser.username) then none
      else some (NewUser awsUser.givenName awsUser.familyName awsUser.username awsUser.active)) :=
  rfl

/-- Closed form of the add output of `getGroupOperations`. -/
theorem getGroupOperations_add_eq (AG : List AwsGroup) (GG : List GoogleGroup) :
    (getGroupOperations AG GG).1 = GG.filterMap (fun gGroup =>
      match lookupLast AG awsGroupKey (googleGroupKey gGroup) with
      | some _ => none
      | none => some (NewGroup (googleGroupKey gGroup))) := rfl

/-- Closed form of the equals output of `getGroupOperations`. -/
theorem getGroupOperations_equals_eq (AG : List AwsGroup) (GG : List GoogleGroup) :
    (getGroupOperations AG GG).2.2 = GG.filterMap (fun gGroup =>
      lookupLast AG awsGroupKey (googleGroupKey gGroup)) := rfl

/-- Closed form of the delete output of `getGroupOperations`. -/
theorem getGroupOperations_del_eq (AG : List AwsGroup) (GG : List GoogleGroup) :
    (getGroupOperations AG GG).2.1 = AG.filterMap (fun awsGroup =>
      if GG.any (fun g => googleGroupKey g == awsGroupKey awsGroup) then none
      else some (NewGroup (awsGroupKey awsGroup))) := rfl

theorem userKeys_add_iff (A : List AwsUser) (G : List GoogleUser) (k : String) :
    k ∈ userKeys (getUserOperations A G).1 ↔
      ∃ g ∈ G, g.primaryEmail = k ∧ lookupLast A (fun u => u.username) k = none := by
  rw [getUserOperations_add_eq]
  unfold userKeys
  rw [List.mem_map]
  constructor
  · rintro ⟨r, hr, hrk⟩
    obtain ⟨g, hg, hf⟩ := List.mem_filterMap.mp hr
    rcases hl : lookupLast A (fun u => u.username) g.primaryEmail with _ | a
    · rw [hl] at hf
      have hr' : r = NewUser g.givenName g.familyName g.primaryEmail (!g.suspended) :=
        (Option.some.inj hf).symm
      have hk : g.primaryEmail = k := by
        rw [← hrk, hr']
        rfl
      exact ⟨g, hg, hk, hk ▸ hl⟩
    · rw [hl] at hf
      simp at hf
  · rintro ⟨g, hg, hk, hl⟩
    refine ⟨NewUser g.givenName g.familyName g.primaryEmail (!g.suspended),
      List.mem_filterMap.mpr ⟨g, hg, ?_⟩, hk⟩
    rw [hk, hl]

theorem userKeys_update_iff (A : List AwsUser) (G : List GoogleUser) (k : String) :
    k ∈ userKeys (getUserOperations A G).2.2.1 ↔
      ∃ g ∈ G, g.primaryEmail = k ∧ ∃ a, lookupLast A (fun u => u.username) k = some a ∧
        userNeedsUpdate a g = true := by
  rw [getUserOperations_update_eq]
  unfold userKeys
  rw [List.mem_map]
  constructor
  · rintro ⟨r, hr, hrk⟩
    obtain ⟨g, hg, hf⟩ := List.mem_filterMap.mp hr
    rcases hl : lookupLast A (fun u => u.username) g.primaryEmail with _ | a
    · rw [hl] at hf
      simp at hf
    · rw [hl] at hf
      rcases hupd : userNeedsUpdate a g
      · simp [hupd] at hf
      · simp only [hupd, if_true, Option.some.injEq] at hf
        have hk : g.primaryEmail = k := by
          rw [← hrk, ← hf]
          rfl
        exact ⟨g, hg, hk, a, hk ▸ hl, hupd⟩
  · rintro ⟨g, hg, hk, a, hl, hupd⟩
    refine ⟨NewUser g.givenName g.familyName g.primaryEmail (!g.suspended),
      List.mem_filterMap.mpr ⟨g, hg, ?_⟩, hk⟩
    rw [hk, hl]
    simp [hupd]

theorem userKeys_equals_iff (A : List AwsUser) (G : List GoogleUser) (k : String) :
    k ∈ userKeys (getUserOperations A G).2.2.2 ↔
      ∃ g ∈ G, g.primaryEmail = k ∧ ∃ a, lookupLast A (fun u => u.username) k = some a ∧
        userNeedsUpdate a g = false := by
  rw [getUserOperations_equals_eq]
  unfold userKeys
  rw [List.mem_map]
  constructor
  · rintro ⟨r, hr, hrk⟩
    obtain ⟨g, hg, hf⟩ := List.mem_filterMap.mp hr
    rcases hl : lookupLast A (fun u => u.username) g.primaryEmail with _ | a
    · rw [hl] at hf
      simp at hf
    · rw [hl] at hf
      have hf' : (if userNeedsUpdate a g = true then none else some a) = some r := hf
      rcases hupd : userNeedsUpdate a g
      · rw [if_neg (by simp [hupd])] at hf'
        have haf : a = r := Option.some.inj hf'
        have hak : a.username = g.primaryEmail := (lookupLast_mem_key hl).2
        have hk : g.primaryEmail = k := by
          rw [← hrk, ← haf, hak]
        exact ⟨g, hg, hk, a, hk ▸ hl, hupd⟩
      · rw [if_pos (by simp [hupd])] at hf'
        exact absurd hf' (by simp)
  · rintro ⟨g, hg, hk, a, hl, hupd⟩
    have hak : a.username = k := (lookupLast_mem_key hl).2
    refine ⟨a, List.mem_filterMap.mpr ⟨g, hg, ?_⟩, hak⟩
    rw [hk, hl]
    show (if userNeedsUpdate a g = true then none else some a) = some a
    rw [if_neg (by simp [hupd])]

theorem userKeys_del_iff (A : List AwsUser) (G : List GoogleUser) (k : String) :
    k ∈ userKeys (getUserOperations A G).2.1 ↔
      (∃ a ∈ A, a.username = k) ∧ ∀ g ∈ G, g.primaryEmail ≠ k := by
  rw [getUserOperations_del_eq]
  unfold userKeys
  rw [List.mem_map]
  constructor
  · rintro ⟨r, hr, hrk⟩
    obtain ⟨a, ha, hf⟩ := List.mem_filterMap.mp hr
    rcases hany : G.any (fun g => g.primaryEmail == a.username)
    · simp only [hany] at hf
      rw [if_neg (by simp)] at hf
      have hf' := Option.some.inj hf
      have hk : a.username = k := by
        rw [← hrk, ← hf']
        rfl
      refine ⟨⟨a, ha, hk⟩, ?_⟩
      intro g hg hgk
      have : G.any (fun g => g.primaryEmail == a.username) = true :=
        List.any_eq_true.mpr ⟨g, hg, by simp [hgk, hk]⟩
      rw [hany] at this
      exact Bool.false_ne_true this
    · simp [hany] at hf
  · rintro ⟨⟨a, ha, hk⟩, hnone⟩
    have hany : G.any (fun g => g.primaryEmail == a.username) = false := by
      rcases hany : G.any (fun g => g.primaryEmail == a.username)
      · rfl
      · obtain ⟨g, hg, hgk⟩ := List.any_eq_true.mp hany
        have : g.primaryEmail = a.username := by simpa using hgk
        exact absurd (this.trans hk) (hnone g hg)
    refine ⟨NewUser a.givenName a.familyName a.username a.active,
      List.mem_filterMap.mpr ⟨a, ha, ?_⟩, hk⟩
    rw [hany]
    simp

theorem groupKeys_add_iff (AG : List AwsGroup) (GG : List GoogleGroup) (k : String) :
    k ∈ groupKeys (getGroupOperations AG GG).1 ↔
      ∃ g ∈ GG, googleGroupKey g = k ∧ lookupLast AG awsGroupKey k = none := by
  rw [getGroupOperations_add_eq]
  unfold groupKeys
  rw [List.mem_map]
  constructor
  · rintro ⟨r, hr, hrk⟩
    obtain ⟨g, hg, hf⟩ := List.mem_filterMap.mp hr
    rcases hl : lookupLast AG awsGroupKey (googleGroupKey g) with _ | a
    · rw [hl] at hf
      have hr' : r = NewGroup (googleGroupKey g) := (Option.some.inj hf).symm
      have hk : googleGroupKey g = k := by
        rw [← hrk, hr']
        rfl
      exact ⟨g, hg, hk, hk ▸ hl⟩
    · rw [hl] at hf
      simp at hf
  · rintro ⟨g, hg, hk, hl⟩
    refine ⟨NewGroup (googleGroupKey g), List.mem_filterMap.mpr ⟨g, hg, ?_⟩, hk⟩
    rw [hk, hl]

theorem groupKeys_equals_iff (AG : List AwsGroup) (GG : List GoogleGroup) (k : String) :
    k ∈ groupKeys (getGroupOperations AG GG).2.2 ↔
      ∃ g ∈ GG, googleGroupKey g = k ∧ ∃ a, lookupLast AG awsGroupKey k = some a := by
  rw [getGroupOperations_equals_eq]
  unfold groupKeys
  rw [List.mem_map]
  constructor
  · rintro ⟨r, hr, hrk⟩
    obtain ⟨g, hg, hf⟩ := List.mem_filterMap.mp hr
    have hak : awsGroupKey r = googleGroupKey g := (lookupLast_mem_key hf).2
    have hk : googleGroupKey g = k := by
      rw [← hrk, ← hak]
    exact ⟨g, hg, hk, r, hk ▸ hf⟩
  · rintro ⟨g, hg, hk, a, hl⟩
    have hak : awsGroupKey a = k := (lookupLast_mem_key hl).2
    exact ⟨a, List.mem_filterMap.mpr ⟨g, hg, by rw [hk, hl]⟩, hak⟩

theorem groupKeys_del_iff (AG : List AwsGroup) (GG : List GoogleGroup) (k : String) :
    k ∈ groupKeys (getGroupOperations AG GG).2.1 ↔
      (∃ a ∈ AG, awsGroupKey a = k) ∧ ∀ g ∈ GG, googleGroupKey g ≠ k := by
  rw [getGroupOperations_del_eq]
  unfold groupKeys
  rw [List.mem_map]
  constructor
  · rintro ⟨r, hr, hrk⟩
    obtain ⟨a, ha, hf⟩ := List.mem_filterMap.mp hr
    rcases hany : GG.any (fun g => googleGroupKey g == awsGroupKey a)
    · simp only [hany] at hf
      rw [if_neg (by simp)] at hf
      have hf' := Option.some.inj hf
      have hk : awsGroupKey a = k := by
        rw [← hrk, ← hf']
        rfl
      refine ⟨⟨a, ha, hk⟩, ?_⟩
      intro g hg hgk
      have : GG.any (fun g => googleGroupKey g == awsGroupKey a) = true :=
        List.any_eq_true.mpr ⟨g, hg, by simp [hgk, hk]⟩
      rw [hany] at this
      exact Bool.false_ne_true this
    · simp [hany] at hf
  · rintro ⟨⟨a, ha, hk⟩, hnone⟩
    have hany : GG.any (fun g => googleGroupKey g == awsGroupKey a) = false := by
      rcases hany : GG.any (fun g => googleGroupKey g == awsGroupKey a)
      · rfl
      · obtain ⟨g, hg, hgk⟩ := List.any_eq_true.mp hany
        have : googleGroupKey g = awsGroupKey a := by simpa using hgk
        exact absurd (this.trans hk) (hnone g hg)
    refine ⟨NewGroup (awsGroupKey a), List.mem_filterMap.mpr ⟨a, ha, ?_⟩, hk⟩
    rw [hany]
    simp

end Ssosync

namespace Ssosync

/-- **C5** (confirmed).  Disjointness of the diff outputs: with unique
keys on both sides, every upstream user key lands in exactly one of
add / update / unchanged; a key is in the user delete output exactly
when it is downstream-only, and such a key is in none of the other
three outputs; every upstream group key lands in exactly one of
add / equal, and the group delete output is exactly the downstream-only
keys, disjoint from both. -/
theorem diff_outputs_partition
    (A : List AwsUser) (G : List GoogleUser)
    (AG : List AwsGroup) (GG : List GoogleGroup)
    (_hA : (A.map (fun u => u.username)).Nodup)
    (hG : (G.map (fun g => g.primaryEmail)).Nodup)
    (_hAG : (AG.map awsGroupKey).Nodup)
    (_hGG : (GG.map googleGroupKey).Nodup) :
    (∀ g ∈ G,
      (g.primaryEmail ∈ userKeys (getUserOperations A G).1 ∧
        g.primaryEmail ∉ userKeys (getUserOperations A G).2.2.1 ∧
        g.primaryEmail ∉ userKeys (getUserOperations A G).2.2.2) ∨
      (g.primaryEmail ∉ userKeys (getUserOperations A G).1 ∧
        g.primaryEmail ∈ userKeys (getUserOperations A G).2.2.1 ∧
        g.primaryEmail ∉ userKeys (getUserOperations A G).2.2.2) ∨
      (g.primaryEmail ∉ userKeys (getUserOperations A G).1 ∧
        g.primaryEmail ∉ userKeys (getUserOperations A G).2.2.1 ∧
        g.primaryEmail ∈ userKeys (getUserOperations A G).2.2.2)) ∧
    (∀ k, k ∈ userKeys (getUserOperations A G).2.1 ↔
      ((∃ a ∈ A, a.username = k) ∧ ∀ g ∈ G, g.primaryEmail ≠ k)) ∧
    (∀ k ∈ userKeys (getUserOperations A G).2.1,
      k ∉ userKeys (getUserOperations A G).1 ∧
      k ∉ userKeys (getUserOperations A G).2.2.1 ∧
      k ∉ userKeys (getUserOperations A G).2.2.2) ∧
    (∀ g ∈ GG,
      (googleGroupKey g ∈ groupKeys (getGroupOperations AG GG).1 ∧
        googleGroupKey g ∉ groupKeys (getGroupOperations AG GG).2.2) ∨
      (googleGroupKey g ∉ groupKeys (getGroupOperations AG GG).1 ∧
        googleGroupKey g ∈ groupKeys (getGroupOperations AG GG).2.2)) ∧
    (∀ k, k ∈ groupKeys (getGroupOperations AG GG).2.1 ↔
      ((∃ a ∈ AG, awsGroupKey a = k) ∧ ∀ g ∈ GG, googleGroupKey g ≠ k)) ∧
    (∀ k ∈ groupKeys (getGroupOperations AG GG).2.1,
      k ∉ groupKeys (getGroupOperations AG GG).1 ∧
      k ∉ groupKeys (getGroupOperations AG GG).2.2) := by
  refine ⟨?_, fun k => userKeys_del_iff A G k, ?_, ?_, fun k => groupKeys_del_iff AG GG k, ?_⟩
  · intro g hg
    rcases hl : lookupLast A (fun u => u.username) g.primaryEmail with _ | a
    · left
      refine ⟨(userKeys_add_iff A G _).mpr ⟨g, hg, rfl, hl⟩, ?_, ?_⟩
      · intro hk
        obtain ⟨g', hg', hk', a, hla, hupd'⟩ := (userKeys_update_iff A G _).mp hk
        rw [hl] at hla
        exact Option.noConfusion hla
      · intro hk
        obtain ⟨g', hg', hk', a, hla, hupd'⟩ := (userKeys_equals_iff A G _).mp hk
        rw [hl] at hla
        exact Option.noConfusion hla
    · rcases hupd : userNeedsUpdate a g
      · right; right
        refine ⟨?_, ?_, (userKeys_equals_iff A G _).mpr ⟨g, hg, rfl, a, hl, hupd⟩⟩
        · intro hk
          obtain ⟨g', hg', hk', hnone⟩ := (userKeys_add_iff A G _).mp hk
          rw [hnone] at hl
          exact Option.noConfusion hl
        · intro hk
          obtain ⟨g', hg', hk', a', hla', hupd'⟩ := (userKeys_update_iff A G _).mp hk
          rw [hl] at hla'
          have haa : a = a' := Option.some.inj hla'
          have hgg : g' = g := List.inj_on_of_nodup_map hG hg' hg hk'
          rw [hgg, ← haa] at hupd'
          exact Bool.noConfusion (hupd.symm.trans hupd')
      · right; left
        refine ⟨?_, (userKeys_update_iff A G _).mpr ⟨g, hg, rfl, a, hl, hupd⟩, ?_⟩
        · intro hk
          obtain ⟨g', hg', hk', hnone⟩ := (userKeys_add_iff A G _).mp hk
          rw [hnone] at hl
          exact Option.noConfusion hl
        · intro hk
          obtain ⟨g', hg', hk', a', hla', hupd'⟩ := (userKeys_equals_iff A G _).mp hk
          rw [hl] at hla'
          have haa : a = a' := Option.some.inj hla'
          have hgg : g' = g := List.inj_on_of_nodup_map hG hg' hg hk'
          rw [hgg, ← haa] at hupd'
          exact Bool.noConfusion (hupd'.symm.trans hupd)
  · intro k hk
    obtain ⟨⟨a, ha, hak⟩, hnone⟩ := (userKeys_del_iff A G k).mp hk
    refine ⟨?_, ?_, ?_⟩
    · intro h
      obtain ⟨g, hg, hk', _⟩ := (userKeys_add_iff A G k).mp h
      exact hnone g hg hk'
    · intro h
      obtain ⟨g, hg, hk', _⟩ := (userKeys_update_iff A G k).mp h
      exact hnone g hg hk'
    · intro h
      obtain ⟨g, hg, hk', _⟩ := (userKeys_equals_iff A G k).mp h
      exact hnone g hg hk'
  · intro g hg
    rcases hl : lookupLast AG awsGroupKey (googleGroupKey g) with _ | a
    · left
      refine ⟨(groupKeys_add_iff AG GG _).mpr ⟨g, hg, rfl, hl⟩, ?_⟩
      intro hk
      obtain ⟨g', hg', hk', a, hla⟩ := (groupKeys_equals_iff AG GG _).mp hk
      rw [hl] at hla
      exact Option.noConfusion hla
    · right
      refine ⟨?_, (groupKeys_equals_iff AG GG _).mpr ⟨g, hg, rfl, a, hl⟩⟩
      intro hk
      obtain ⟨g', hg', hk', hnone⟩ := (groupKeys_add_iff AG GG _).mp hk
      rw [hnone] at hl
      exact Option.noConfusion hl
  · intro k hk
    obtain ⟨⟨a, ha, hak⟩, hnone⟩ := (groupKeys_del_iff AG GG k).mp hk
    refine ⟨?_, ?_⟩
    · intro h
      obtain ⟨g, hg, hk', _⟩ := (groupKeys_add_iff AG GG k).mp h
      exact hnone g hg hk'
    · intro h
      obtain ⟨g, hg, hk', _⟩ := (groupKeys_equals_iff AG GG k).mp h
      exact hnone g hg hk'

/-- Witness for the partition theorem: a one-user, one-group instance
where the upstream user key lands exactly in `toUpdate`. -/
theorem diff_outputs_partition_witness :
    (gUserUpd.primaryEmail ∈ userKeys (getUserOperations [oldUserUpd] [gUserUpd]).1 ∧
      gUserUpd.primaryEmail ∉ userKeys (getUserOperations [oldUserUpd] [gUserUpd]).2.2.1 ∧
      gUserUpd.primaryEmail ∉ userKeys (getUserOperations [oldUserUpd] [gUserUpd]).2.2.2) ∨
    (gUserUpd.primaryEmail ∉ userKeys (getUserOperations [oldUserUpd] [gUserUpd]).1 ∧
      gUserUpd.primaryEmail ∈ userKeys (getUserOperations [oldUserUpd] [gUserUpd]).2.2.1 ∧
      gUserUpd.primaryEmail ∉ userKeys (getUserOperations [oldUserUpd] [gUserUpd]).2.2.2) ∨
    (gUserUpd.primaryEmail ∉ userKeys (getUserOperations [oldUserUpd] [gUserUpd]).1 ∧
      gUserUpd.primaryEmail ∉ userKeys (getUserOperations [oldUserUpd] [gUserUpd]).2.2.1 ∧
      gUserUpd.primaryEmail ∈ userKeys (getUserOperations [oldUserUpd] [gUserUpd]).2.2.2) :=
  (diff_outputs_partition [oldUserUpd] [gUserUpd] [AwsGroup.mk "g@x.com"]
    [GoogleGroup.mk "G" "g@x.com"] (by decide) (by decide) (by decide) (by decide)).1
    gUserUpd (by decide)

end Ssosync

namespace Ssosync

/-! ### Silent skip of unresolvable upstream members (C9) -/

/-- When every user lookup succeeds, `resolveMember` never fails and
computes `resolveMemberOk`. -/
theorem resolveMember_ok (cfg : Config) (genv : GEnv)
    (husers : ∀ q, ∃ us, genv.getUsers q = Except.ok us) (m : GoogleMember) :
    resolveMember cfg genv m = Except.ok (resolveMemberOk cfg genv m) := by
  unfold resolveMemberOk resolveMember
  rcases hig : ignoreUser cfg m.email
  · rcases hty : (m.type == "GROUP")
    · obtain ⟨us, hus⟩ := husers ("email:" ++ m.email)
      rw [hus]
      cases us <;> simp [hig, hty, hus]
    · simp [hig, hty]
  · simp [hig]

/-- When every user lookup succeeds, the member loop never fails: it
returns exactly the `filterMap` of `resolveMemberOk` over the members,
and every binding added to the uniq map comes from a resolved member. -/
theorem collectMembers_ok (cfg : Config) (genv : GEnv)
    (husers : ∀ q, ∃ us, genv.getUsers q = Except.ok us) :
    ∀ (ms : List GoogleMember) (uniq : List (String × GoogleUser)),
      ∃ uniq1, collectMembers cfg genv ms uniq
          = Except.ok (ms.filterMap (resolveMemberOk cfg genv), uniq1) ∧
        ∀ p ∈ uniq1, p ∈ uniq ∨ ∃ m ∈ ms, resolveMemberOk cfg genv m = some p.2
  | [], uniq => ⟨uniq, rfl, fun p hp => Or.inl hp⟩
  | m :: rest, uniq => by
    have hres := resolveMember_ok cfg genv husers m
    rcases hro : resolveMemberOk cfg genv m with _ | u
    · rw [hro] at hres
      obtain ⟨uniq1, hcol, hmem⟩ := collectMembers_ok cfg genv husers rest uniq
      refine ⟨uniq1, ?_, ?_⟩
      · show (match resolveMember cfg genv m with
          | Except.error e => Except.error e
          | Except.ok none => collectMembers cfg genv rest uniq
          | Except.ok (some u) =>
            let uniq1 := if (lookupMap uniq m.email).isSome then uniq
              else uniq ++ [(m.email, u)]
            match collectMembers cfg genv rest uniq1 with
            | Except.error e => Except.error e
            | Except.ok (us, uniq2) => Except.ok (u :: us, uniq2)) = _
        rw [hres, hcol]
        simp [List.filterMap_cons, hro]
      · intro p hp
        rcases hmem p hp with h | ⟨m', hm', hr'⟩
        · exact Or.inl h
        · exact Or.inr ⟨m', List.mem_cons_of_mem m hm', hr'⟩
    · rw [hro] at hres
      obtain ⟨uniq2, hcol, hmem⟩ := collectMembers_ok cfg genv husers rest
        (if (lookupMap uniq m.email).isSome then uniq else uniq ++ [(m.email, u)])
      refine ⟨uniq2, ?_, ?_⟩
      · show (match resolveMember cfg genv m with
          | Except.error e => Except.error e
          | Except.ok none => collectMembers cfg genv rest uniq
          | Except.ok (some u) =>
            let uniq1 := if (lookupMap uniq m.email).isSome then uniq
              else uniq ++ [(m.email, u)]
            match collectMembers cfg genv rest uniq1 with
            | Except.error e => Except.error e
            | Except.ok (us, uniq2) => Except.ok (u :: us, uniq2)) = _
        rw [hres]
        simp only []
        rw [hcol]
        simp [List.filterMap_cons, hro]
      · intro p hp
        rcases hmem p hp with h | ⟨m', hm', hr'⟩
        · by_cases hlk : (lookupMap uniq m.email).isSome
          · rw [if_pos hlk] at h
            exact Or.inl h
          · rw [if_neg hlk] at h
            rcases List.mem_append.mp h with h' | h'
            · exact Or.inl h'
            · rcases List.mem_singleton.mp h' with rfl
              exact Or.inr ⟨m, List.mem_cons_self m rest, hro⟩
        · exact Or.inr ⟨m', List.mem_cons_of_mem m hm', hr'⟩

/-- When the Google calls succeed, the group loop returns the keyed map
of per-group resolved member lists, and every uniq binding comes from a
resolved member of a non-ignored group. -/
theorem googleGroupsLoop_ok (cfg : Config) (genv : GEnv) (key : GoogleGroup → String)
    (mems : GoogleGroup → List GoogleMember)
    (hmems : ∀ g, genv.getGroupMembers g = Except.ok (mems g))
    (husers : ∀ q, ∃ us, genv.getUsers q = Except.ok us) :
    ∀ (gs : List GoogleGroup) (uniq : List (String × GoogleUser)),
      ∃ uniqN, googleGroupsLoop cfg genv key gs uniq
          = Except.ok ((gs.filter (fun g => !(ignoreGroup cfg g.email))).map
              (fun g => (key g, (mems g).filterMap (resolveMemberOk cfg genv))), uniqN) ∧
        ∀ p ∈ uniqN, p ∈ uniq ∨ ∃ g ∈ gs, ignoreGroup cfg g.email = false ∧
          ∃ m ∈ mems g, resolveMemberOk cfg genv m = some p.2
  | [], uniq => ⟨uniq, rfl, fun p hp => Or.inl hp⟩
  | g :: rest, uniq => by
    rcases hig : ignoreGroup cfg g.email
    · obtain ⟨uniq1, hcol, hmem1⟩ := collectMembers_ok cfg genv husers (mems g) uniq
      obtain ⟨uniqN, hloop, hmemN⟩ := googleGroupsLoop_ok cfg genv key mems hmems husers rest uniq1
      refine ⟨uniqN, ?_, ?_⟩
      · show (if ignoreGroup cfg g.email = true then googleGroupsLoop cfg genv key rest uniq
          else match genv.getGroupMembers g with
            | Except.error e => Except.error e
            | Except.ok groupMembers =>
              match collectMembers cfg genv groupMembers uniq with
              | Except.error e => Except.error e
              | Except.ok (membersUsers, uniq1) =>
                match googleGroupsLoop cfg genv key rest uniq1 with
                | Except.error e => Except.error e
                | Except.ok (assoc, uniq2) =>
                    Except.ok ((key g, membersUsers) :: assoc, uniq2)) = _
        rw [if_neg (by simp [hig]), hmems g]
        simp [hcol, hloop, hig]
      · intro p hp
        rcases hmemN p hp with h | ⟨g', hg', hig', m', hm', hr'⟩
        · rcases hmem1 p h with h' | ⟨m', hm', hr'⟩
          · exact Or.inl h'
          · exact Or.inr ⟨g, List.mem_cons_self g rest, hig, m', hm', hr'⟩
        · exact Or.inr ⟨g', List.mem_cons_of_mem g hg', hig', m', hm', hr'⟩
    · obtain ⟨uniqN, hloop, hmemN⟩ := googleGroupsLoop_ok cfg genv key mems hmems husers rest uniq
      refine ⟨uniqN, ?_, ?_⟩
      · show (if ignoreGroup cfg g.email = true then googleGroupsLoop cfg genv key rest uniq
          else match genv.getGroupMembers g with
            | Except.error e => Except.error e
            | Except.ok groupMembers =>
              match collectMembers cfg genv groupMembers uniq with
              | Except.error e => Except.error e
              | Except.ok (membersUsers, uniq1) =>
                match googleGroupsLoop cfg genv key rest uniq1 with
                | Except.error e => Except.error e
                | Except.ok (assoc, uniq2) =>
                    Except.ok ((key g, membersUsers) :: assoc, uniq2)) = _
        rw [if_pos (by simp [hig]), hloop]
        simp [hig]
      · intro p hp
        rcases hmemN p hp with h | ⟨g', hg', hig', m', hm', hr'⟩
        · exact Or.inl h
        · exact Or.inr ⟨g', List.mem_cons_of_mem g hg', hig', m', hm', hr'⟩

/-- **C9** (confirmed).  Silent skip of unresolvable upstream members:
when the Google calls succeed, `getGoogleGroupsAndUsers` returns
without error; each non-ignored group's member list is the `filterMap`
of member resolution over its members, and resolution yields `none` —
contributing nothing to the group list — for every member of type
`"GROUP"` and every member whose user lookup returns an empty list;
moreover every entry of the returned user list originates from some
resolved member, so skipped members contribute nothing there either. -/
theorem getGoogleGroupsAndUsers_skips_unresolvable
    (cfg : Config) (genv : GEnv) (googleGroups : List GoogleGroup)
    (mems : GoogleGroup → List GoogleMember)
    (hmems : ∀ g, genv.getGroupMembers g = Except.ok (mems g))
    (husers : ∀ q, ∃ us, genv.getUsers q = Except.ok us) :
    (∃ gUsers,
      getGoogleGroupsAndUsers cfg genv googleGroups = Except.ok (gUsers,
        (googleGroups.filter (fun g => !(ignoreGroup cfg g.email))).map
          (fun g => (googleGroupKey g, (mems g).filterMap (resolveMemberOk cfg genv)))) ∧
      ∀ u ∈ gUsers, ∃ g ∈ googleGroups, ignoreGroup cfg g.email = false ∧
        ∃ m ∈ mems g, resolveMemberOk cfg genv m = some u) ∧
    (∀ m : GoogleMember, m.type = "GROUP" → resolveMemberOk cfg genv m = none) ∧
    (∀ m : GoogleMember, genv.getUsers ("email:" ++ m.email) = Except.ok [] →
      resolveMemberOk cfg genv m = none) := by
  refine ⟨?_, ?_, ?_⟩
  · obtain ⟨uniqN, hloop, hmemN⟩ :=
      googleGroupsLoop_ok cfg genv googleGroupKey mems hmems husers googleGroups []
    refine ⟨uniqN.map (fun p => p.2), ?_, ?_⟩
    · unfold getGoogleGroupsAndUsers
      rw [hloop]
    · intro u hu
      obtain ⟨p, hp, hpu⟩ := List.mem_map.mp hu
      rcases hmemN p hp with h | ⟨g, hg, hig, m, hm, hr⟩
      · simp at h
      · exact ⟨g, hg, hig, m, hm, hpu ▸ hr⟩
  · intro m hty
    unfold resolveMemberOk resolveMember
    rcases hig : ignoreUser cfg m.email
    · simp [hig, hty]
    · simp [hig]
  · intro m hus
    unfold resolveMemberOk resolveMember
    rcases hig : ignoreUser cfg m.email
    · rcases hty : (m.type == "GROUP")
      · simp [hig, hty, hus]
      · simp [hig, hty]
    · simp [hig]

/-- Witness for the silent-skip theorem: one group whose members are a
resolvable user, a nested `GROUP` address, and an unknown address; the
group's produced member list is the resolution `filterMap`, and here it
evaluates to just the resolvable user. -/
theorem getGoogleGroupsAndUsers_skips_unresolvable_witness :
    (∃ gUsers,
      getGoogleGroupsAndUsers cfgEmpty genvSkip [gGroupX] = Except.ok (gUsers,
        ([gGroupX].filter (fun g => !(ignoreGroup cfgEmpty g.email))).map
          (fun g => (googleGroupKey g,
            memsSkip.filterMap (resolveMemberOk cfgEmpty genvSkip)))) ∧
      ∀ u ∈ gUsers, ∃ g ∈ [gGroupX], ignoreGroup cfgEmpty g.email = false ∧
        ∃ m ∈ memsSkip, resolveMemberOk cfgEmpty genvSkip m = some u) ∧
    memsSkip.filterMap (resolveMemberOk cfgEmpty genvSkip) = [gUserX] :=
  ⟨(getGoogleGroupsAndUsers_skips_unresolvable cfgEmpty genvSkip [gGroupX]
      (fun _ => memsSkip) (fun _ => rfl)
      (fun q => by
        unfold genvSkip
        dsimp only
        split
        · exact ⟨[gUserX], rfl⟩
        · exact ⟨[], rfl⟩)).1,
   by decide⟩

end Ssosync

namespace Ssosync

/-! ### Dual-store write discipline (C7) and the discarded check error (C10) -/

theorem mem_insertRow_self (rows : List (String × String)) (g u : String) :
    (g, u) ∈ insertRow rows g u := by
  unfold insertRow
  by_cases h : (g, u) ∈ rows
  · rw [if_pos h]
    exact h
  · rw [if_neg h]
    exact List.mem_append.mpr (Or.inr (List.mem_singleton.mpr rfl))

theorem not_mem_removeRow_self (rows : List (String × String)) (g u : String) :
    (g, u) ∉ removeRow rows g u := by
  unfold removeRow
  intro h
  have := (List.mem_filter.mp h).2
  simp at this

/-- **C7** (confirmed).  Dual-store write ordering of the combined
client: on addition the cache is checked first, the cache row is
written exactly when the check reported the user absent, and the
provisioning store is written only after that; on removal the
provisioning store is written first and the cache second; and a
successful addition leaves the membership present in both stores while
a successful removal leaves it absent from both. -/
theorem awsClient_dualStore_write_discipline (fe : FaultEnv) (st : DualState) (u g : String) :
    (∃ tail, (awsClientAddUserToGroup fe st u g).2.2
        = StoreEvent.cacheCheck g u (dynamoIsUserInGroup fe st u g).1 ::
            ((if (dynamoIsUserInGroup fe st u g).1 then []
              else [StoreEvent.cacheAdd g u]) ++ tail) ∧
      (tail = [] ∨ tail = [StoreEvent.ssoAdd g u])) ∧
    ((awsClientAddUserToGroup fe st u g).1 = Except.ok () →
      (g, u) ∈ (awsClientAddUserToGroup fe st u g).2.1.cacheRows ∧
      (g, u) ∈ (awsClientAddUserToGroup fe st u g).2.1.ssoRows) ∧
    (∃ tail, (awsClientRemoveUserFromGroup fe st u g).2.2
        = StoreEvent.ssoRemove g u :: tail ∧
      (tail = [] ∨ tail = [StoreEvent.cacheRemove g u])) ∧
    ((awsClientRemoveUserFromGroup fe st u g).1 = Except.ok () →
      (g, u) ∉ (awsClientRemoveUserFromGroup fe st u g).2.1.cacheRows ∧
      (g, u) ∉ (awsClientRemoveUserFromGroup fe st u g).2.1.ssoRows) := by
  refine ⟨?_, ?_, ?_, ?_⟩
  · rcases hb : (dynamoIsUserInGroup fe st u g).1
    · rcases hca : fe.cacheAddErr with _ | e1
      · rcases hsa : fe.ssoAddErr with _ | e2
        · exact ⟨[StoreEvent.ssoAdd g u],
            by simp [awsClientAddUserToGroup, hb, hca, hsa], Or.inr rfl⟩
        · exact ⟨[StoreEvent.ssoAdd g u],
            by simp [awsClientAddUserToGroup, hb, hca, hsa], Or.inr rfl⟩
      · exact ⟨[], by simp [awsClientAddUserToGroup, hb, hca], Or.inl rfl⟩
    · rcases hsa : fe.ssoAddErr with _ | e2
      · exact ⟨[StoreEvent.ssoAdd g u],
          by simp [awsClientAddUserToGroup, hb, hsa], Or.inr rfl⟩
      · exact ⟨[StoreEvent.ssoAdd g u],
          by simp [awsClientAddUserToGroup, hb, hsa], Or.inr rfl⟩
  · intro hok
    rcases hc : fe.cacheCheckErr with _ | e0
    · rcases hmem : decide ((g, u) ∈ st.cacheRows)
      · have hb : (dynamoIsUserInGroup fe st u g).1 = false := by
          simp [dynamoIsUserInGroup, hc, hmem]
        rcases hca : fe.cacheAddErr with _ | e1
        · rcases hsa : fe.ssoAddErr with _ | e2
          · constructor
            · simp [awsClientAddUserToGroup, hb, hca, hsa, mem_insertRow_self]
            · simp [awsClientAddUserToGroup, hb, hca, hsa, mem_insertRow_self]
          · simp [awsClientAddUserToGroup, hb, hca, hsa] at hok
        · simp [awsClientAddUserToGroup, hb, hca] at hok
      · have hb : (dynamoIsUserInGroup fe st u g).1 = true := by
          simp [dynamoIsUserInGroup, hc]
          exact of_decide_eq_true hmem
        rcases hsa : fe.ssoAddErr with _ | e2
        · constructor
          · simpa [awsClientAddUserToGroup, hb, hsa] using of_decide_eq_true hmem
          · simp [awsClientAddUserToGroup, hb, hsa, mem_insertRow_self]
        · simp [awsClientAddUserToGroup, hb, hsa] at hok
    · have hb : (dynamoIsUserInGroup fe st u g).1 = false := by
        simp [dynamoIsUserInGroup, hc]
      rcases hca : fe.cacheAddErr with _ | e1
      · rcases hsa : fe.ssoAddErr with _ | e2
        · constructor
          · simp [awsClientAddUserToGroup, hb, hca, hsa, mem_insertRow_self]
          · simp [awsClientAddUserToGroup, hb, hca, hsa, mem_insertRow_self]
        · simp [awsClientAddUserToGroup, hb, hca, hsa] at hok
      · simp [awsClientAddUserToGroup, hb, hca] at hok
  · rcases hsr : fe.ssoRemoveErr with _ | e1
    · rcases hcr : fe.cacheRemoveErr with _ | e2
      · exact ⟨[StoreEvent.cacheRemove g u],
          by simp [awsClientRemoveUserFromGroup, hsr, hcr], Or.inr rfl⟩
      · exact ⟨[StoreEvent.cacheRemove g u],
          by simp [awsClientRemoveUserFromGroup, hsr, hcr], Or.inr rfl⟩
    · exact ⟨[], by simp [awsClientRemoveUserFromGroup, hsr], Or.inl rfl⟩
  · intro hok
    rcases hsr : fe.ssoRemoveErr with _ | e1
    · rcases hcr : fe.cacheRemoveErr with _ | e2
      · constructor
        · simp [awsClientRemoveUserFromGroup, hsr, hcr, not_mem_removeRow_self]
        · simp [awsClientRemoveUserFromGroup, hsr, hcr, not_mem_removeRow_self]
      · simp [awsClientRemoveUserFromGroup, hsr, hcr] at hok
    · simp [awsClientRemoveUserFromGroup, hsr] at hok

/-- Witness for the dual-store discipline: the fault-free environment
over empty stores — the add trace is check, cache write, provisioning
write; the successful add puts the row in both stores, the successful
removal leaves it in neither. -/
theorem awsClient_dualStore_write_discipline_witness :
    ("g", "u") ∈ (awsClientAddUserToGroup (FaultEnv.mk none none none none none)
        (DualState.mk [] []) "u" "g").2.1.cacheRows ∧
    ("g", "u") ∈ (awsClientAddUserToGroup (FaultEnv.mk none none none none none)
        (DualState.mk [] []) "u" "g").2.1.ssoRows ∧
    ("g", "u") ∉ (awsClientRemoveUserFromGroup (FaultEnv.mk none none none none none)
        (DualState.mk [("g", "u")] [("g", "u")]) "u" "g").2.1.cacheRows ∧
    ("g", "u") ∉ (awsClientRemoveUserFromGroup (FaultEnv.mk none none none none none)
        (DualState.mk [("g", "u")] [("g", "u")]) "u" "g").2.1.ssoRows :=
  have h1 := (awsClient_dualStore_write_discipline (FaultEnv.mk none none none none none)
    (DualState.mk [] []) "u" "g").2.1 rfl
  have h2 := (awsClient_dualStore_write_discipline (FaultEnv.mk none none none none none)
    (DualState.mk [("g", "u")] [("g", "u")]) "u" "g").2.2.2 rfl
  ⟨h1.1, h1.2, h2.1, h2.2⟩

end Ssosync

namespace Ssosync

/-- **C10** (confirmed).  The combined client's `AddUserToGroup`
discards the error of the cache membership check: when the cache check
fails, the operation proceeds exactly as if the user were absent — it
writes the membership row to the cache, then the provisioning store —
and the call's result is determined by the two write calls alone; the
check's error value never appears in the result. -/
theorem awsClientAdd_check_error_discarded (fe : FaultEnv) (st : DualState) (u g : String)
    (e : Err) (hc : fe.cacheCheckErr = some e) :
    awsClientAddUserToGroup fe st u g =
      match fe.cacheAddErr with
      | some e1 => (Except.error (ClientErr.wrapCacheAdd e1), st,
          [StoreEvent.cacheCheck g u false, StoreEvent.cacheAdd g u])
      | none =>
        match fe.ssoAddErr with
        | some e2 => (Except.error (ClientErr.wrapSsoAdd e2),
            DualState.mk (insertRow st.cacheRows g u) st.ssoRows,
            [StoreEvent.cacheCheck g u false, StoreEvent.cacheAdd g u, StoreEvent.ssoAdd g u])
        | none => (Except.ok (),
            DualState.mk (insertRow st.cacheRows g u) (insertRow st.ssoRows g u),
            [StoreEvent.cacheCheck g u false, StoreEvent.cacheAdd g u,
             StoreEvent.ssoAdd g u]) := by
  rcases hca : fe.cacheAddErr with _ | e1 <;> rcases hsa : fe.ssoAddErr with _ | e2 <;>
    simp [awsClientAddUserToGroup, dynamoIsUserInGroup, hc, hca, hsa]

/-- Witness for the discarded check error: a failing check over empty
stores with fault-free writes ends in success with the row written to
both stores — the check's error `Err.other 1` is nowhere in the
result. -/
theorem awsClientAdd_check_error_discarded_witness :
    awsClientAddUserToGroup (FaultEnv.mk (some (Err.other 1)) none none none none)
        (DualState.mk [] []) "u" "g" =
      (Except.ok (), DualState.mk [("g", "u")] [("g", "u")],
        [StoreEvent.cacheCheck "g" "u" false, StoreEvent.cacheAdd "g" "u",
         StoreEvent.ssoAdd "g" "u"]) :=
  awsClientAdd_check_error_discarded (FaultEnv.mk (some (Err.other 1)) none none none none)
    (DualState.mk [] []) "u" "g" (Err.other 1) rfl

end Ssosync
